import Mathlib

/-!
# Key-value store server and client: embedding and verified properties

Sources: `kvstore_server.c` and `kvstore_client.c`.

The server keeps a fixed table of `HASH_SIZE` bucket chains, reads one request line
per call of `handle_client`, scans it with two `sscanf` formats and answers on the
same descriptor. The client reads operator lines with `fgets`, forwards the lines that
begin with `SET ` or `GET ` and prints the answer.

Conventions of the embedding
* a byte is a natural number (`0 .. 255` for the bytes that really travel);
* a C string is the list of the bytes that precede its terminating NUL, see `cstr`;
* the descriptor being read is the list of the outcomes of the successive
  `read(fd, &c, 1)` calls, the end of the list being the closed peer (`r == 0`);
* the peer takes every byte handed to `write`, so that the effect of `write_all` is
  to append the `len` first bytes of its buffer to the output;
* `malloc` returns a block.
-/

namespace KVStore

/-- One byte of a buffer or of the wire. -/
abbrev Byte := Nat

/-- ASCII bytes of a literal, used to write the C string constants. -/
def bytes (s : String) : List Byte := s.toList.map Char.toNat

/-- The C string that starts at the beginning of a buffer: everything before the first NUL. -/
def cstr (p : List Byte) : List Byte := p.takeWhile (fun b => b != 0)

/-- The predicate `isspace` of the C locale: space, `\t`, `\n`, `\v`, `\f`, `\r`. -/
def isspace (b : Byte) : Bool := b == 32 || (9 ≤ b && b ≤ 13)

def BUF_SIZE : Nat := 1024
def HASH_SIZE : Nat := 1024

/-- The node `kv_entry_t`: `key` and `value` are the strings held by `char key[256]` and
`char value[768]`; the `next` pointer is the tail of the chain the node is in. -/
structure kv_entry_t where
  key : List Byte
  value : List Byte
deriving DecidableEq

/-- The table `hash_table[HASH_SIZE]`: bucket `i` is the chain that starts at
`hash_table[i]`, head first. Only the indices below `HASH_SIZE` exist in C. -/
abbrev Store := Nat → List kv_entry_t

/-- The table at process start: every bucket is `NULL`. -/
def empty_store : Store := fun _ => []

/-- Assignment `hash_table[idx] = chain`. -/
def Store.put (s : Store) (idx : Nat) (chain : List kv_entry_t) : Store :=
  fun i => if i = idx then chain else s i

/-- All nodes of the table, bucket after bucket. -/
def all_entries (s : Store) : List kv_entry_t := (List.range HASH_SIZE).flatMap s

/-- Conversion of a `char` to `int` (`c = *str++`), `char` being signed as on x86-64
Linux, and then to `unsigned long` for the addition: a byte above 127 becomes
`2^64 - 256 + b`. -/
def char_to_ulong (b : Byte) : Nat := if b < 128 then b else 2 ^ 64 - 256 + b

/-- The loop of `hash`: `hash = ((hash << 5) + hash) + c` in `unsigned long`. -/
def hash_loop (h : Nat) : List Byte → Nat
  | [] => h
  | c :: str => hash_loop (((h * 32) % 2 ^ 64 + h + char_to_ulong c) % 2 ^ 64) str

/-- The function `hash`: djb2 from 5381 over the string, `% HASH_SIZE`. -/
def hash (str : List Byte) : Nat := hash_loop 5381 (cstr str) % HASH_SIZE

/-- One `strncpy(dst, src, n); dst[n] = '\0'` pair, read back as a string. -/
def strncpy_z (src : List Byte) (n : Nat) : List Byte := (cstr src).take n

/-- The `while (curr)` loop of `set_kv`: `some chain'` when a node with the key was found
and its value overwritten, `none` when the end of the chain was reached. -/
def set_kv_walk (key value : List Byte) : List kv_entry_t → Option (List kv_entry_t)
  | [] => none
  | curr :: next =>
    if curr.key = cstr key then
      some ({ curr with value := strncpy_z value 767 } :: next)
    else
      (set_kv_walk key value next).map (fun c => curr :: c)

/-- The function `set_kv`. -/
def set_kv (s : Store) (key value : List Byte) : Store :=
  let idx := hash key
  match set_kv_walk key value (s idx) with
  | some chain => s.put idx chain
  | none =>
    let new_entry : kv_entry_t := { key := strncpy_z key 255, value := strncpy_z value 767 }
    s.put idx (new_entry :: s idx)

/-- The `while (curr)` loop of `get_kv`. -/
def get_kv_walk (key : List Byte) : List kv_entry_t → Option (List Byte)
  | [] => none
  | curr :: next => if curr.key = cstr key then some curr.value else get_kv_walk key next

/-- The function `get_kv`; `none` is `NULL`. -/
def get_kv (s : Store) (key : List Byte) : Option (List Byte) :=
  get_kv_walk key (s (hash key))

/-- Outcome of one `read(fd, &c, 1)`. -/
inductive ReadEv where
  | byte (c : Byte)
  | eintr
  | err
deriving DecidableEq

/-- What `read_line` leaves: its return value, the bytes `buf[0 .. n)` and the
descriptor after the reads. -/
structure Line where
  n : Int
  buf : List Byte
  fd : List ReadEv
deriving DecidableEq

/-- The loop of `read_line`, `acc` being `buf[0 .. n)`. -/
def read_line_loop (maxlen : Nat) : List ReadEv → List Byte → Line
  | [], acc => ⟨acc.length, acc, []⟩
  | ev :: fd, acc =>
    if acc.length + 1 < maxlen then
      match ev with
      | ReadEv.eintr => read_line_loop maxlen fd acc
      | ReadEv.err => ⟨-1, acc, fd⟩
      | ReadEv.byte c =>
        if c = 10 then ⟨(acc ++ [c]).length, acc ++ [c], fd⟩
        else read_line_loop maxlen fd (acc ++ [c])
    else ⟨acc.length, acc, ev :: fd⟩

/-- The function `read_line`. -/
def read_line (fd : List ReadEv) (maxlen : Nat) : Line := read_line_loop maxlen fd []

/-- The function `write_all` towards a peer that takes every byte: `len` bytes of `buf`. -/
def write_all (buf : List Byte) (len : Nat) : List Byte := buf.take len

/-- The directives of the two formats given to `sscanf`. -/
inductive Directive where
  | lit (c : Byte)
  | white
  | str (width : Nat)
  | notnl (width : Nat)
deriving DecidableEq

/-- Return value of `sscanf` on an input failure: `EOF` before the first conversion. -/
def input_failure (count : Nat) : Int := if count = 0 then -1 else count

/-- The scanner `sscanf` on the rest of the input, with the number of conversions
done and the strings assigned so far.
* an ordinary character has to be the next byte;
* white space in the format skips any run of `isspace` bytes, also an empty one;
* `%Ns` skips white space, then takes up to `N` bytes that are not white space;
* `%N[^\n]` takes up to `N` bytes that are not a newline, at least one. -/
def sscanf_go : List Directive → List Byte → Nat → List (List Byte) → Int × List (List Byte)
  | [], _, count, args => (count, args)
  | Directive.lit _ :: _, [], count, args => (input_failure count, args)
  | Directive.lit c :: fmt, b :: inp, count, args =>
    if b = c then sscanf_go fmt inp count args else (count, args)
  | Directive.white :: fmt, inp, count, args =>
    sscanf_go fmt (inp.dropWhile isspace) count args
  | Directive.str width :: fmt, inp, count, args =>
    let inp1 := inp.dropWhile isspace
    let tok := (inp1.takeWhile (fun b => !isspace b)).take width
    if tok = [] then (input_failure count, args)
    else sscanf_go fmt (inp1.drop tok.length) (count + 1) (args ++ [tok])
  | Directive.notnl width :: fmt, inp, count, args =>
    let tok := (inp.takeWhile (fun b => b != 10)).take width
    if inp = [] then (input_failure count, args)
    else if tok = [] then (count, args)
    else sscanf_go fmt (inp.drop tok.length) (count + 1) (args ++ [tok])

/-- The call `sscanf(buf, fmt, ...)`: the input is the string in `buf`. -/
def sscanf (buf : List Byte) (fmt : List Directive) : Int × List (List Byte) :=
  sscanf_go fmt (cstr buf) 0 []

/-- The format `"SET %255s %767[^\n]"`. -/
def FMT_SET : List Directive :=
  [Directive.lit 83, Directive.lit 69, Directive.lit 84, Directive.white, Directive.str 255,
   Directive.white, Directive.notnl 767]

/-- The format `"GET %255s"`. -/
def FMT_GET : List Directive :=
  [Directive.lit 71, Directive.lit 69, Directive.lit 84, Directive.white, Directive.str 255]

/-- The call `snprintf(out, size, "%s\n", val)`: what `out` holds as a string, and the
returned length, which is that of the untruncated text. -/
def snprintf_line (size : Nat) (val : List Byte) : List Byte × Int :=
  ((cstr val ++ [10]).take (size - 1), ((cstr val).length + 1 : Nat))

def MSG_OK : List Byte := bytes "OK\n"
def MSG_NOT_FOUND : List Byte := bytes "NOT_FOUND\n"
def MSG_ERROR : List Byte := bytes "ERROR: Use SET <key> <value> or GET <key>\n"

/-- What one call of `handle_client` does: its return value, the bytes written to the
client, the table and the descriptor afterwards. -/
structure Result where
  ret : Int
  out : List Byte
  store : Store
  fd : List ReadEv

/-- The function `handle_client`. The diagnostic `printf` of the first branch goes to the
standard output of the server, not to the client, and is left out. -/
def handle_client (client_fd : List ReadEv) (s : Store) : Result :=
  let l := read_line client_fd BUF_SIZE
  if l.n ≤ 0 then ⟨0, [], s, l.fd⟩
  else
    let r1 := sscanf l.buf FMT_SET
    if r1.1 = 2 then
      ⟨1, write_all MSG_OK 3, set_kv s (r1.2.getD 0 []) (r1.2.getD 1 []), l.fd⟩
    else
      let r2 := sscanf l.buf FMT_GET
      if r2.1 = 1 then
        match get_kv s (r2.2.getD 0 []) with
        | some val =>
          let o := snprintf_line BUF_SIZE val
          if 0 < o.2 then ⟨1, write_all o.1 o.2.toNat, s, l.fd⟩ else ⟨1, [], s, l.fd⟩
        | none => ⟨1, write_all MSG_NOT_FOUND 10, s, l.fd⟩
      else ⟨1, write_all MSG_ERROR 40, s, l.fd⟩

/-- A descriptor that delivers the given bytes without interruption or error. -/
def wire (data : List Byte) : List ReadEv := data.map ReadEv.byte

/-- The keys of all nodes of the table. -/
def keys (s : Store) : List (List Byte) := (all_entries s).map kv_entry_t.key

/-- Number of nodes of the table, all buckets together, whose key is `k`. -/
def key_count (s : Store) (k : List Byte) : Nat := (keys s).count k

/-- A sequence of `set_kv(key, value)` calls, first call first. -/
def run_sets (s : Store) (ops : List (List Byte × List Byte)) : Store :=
  ops.foldl (fun st kv => set_kv st kv.1 kv.2) s

/-- The key and the value that `handle_client` hands to `set_kv` on this descriptor, when
it takes its first branch (`sscanf(buf, "SET %255s %767[^\n]", key, value) == 2`). -/
def set_request (client_fd : List ReadEv) : Option (List Byte × List Byte) :=
  let l := read_line client_fd BUF_SIZE
  if l.n ≤ 0 then none
  else
    let r1 := sscanf l.buf FMT_SET
    if r1.1 = 2 then some (r1.2.getD 0 [], r1.2.getD 1 []) else none

/-- The states of the table that calls of `handle_client` produce from the empty table,
whatever the descriptors deliver. -/
inductive Reachable : Store → Prop where
  | init : Reachable empty_store
  | step (s : Store) (client_fd : List ReadEv) :
      Reachable s → Reachable (handle_client client_fd s).store

/-- What `%255s` assigns after the keyword, `r` being the input behind it. -/
def scan_key (r : List Byte) : List Byte :=
  ((r.dropWhile isspace).takeWhile (fun b => !isspace b)).take 255

/-- The input left for `%767[^\n]`: behind the key, white space skipped. -/
def scan_rest (r : List Byte) : List Byte :=
  ((r.dropWhile isspace).drop (scan_key r).length).dropWhile isspace

/-- What `%767[^\n]` assigns. -/
def scan_value (r : List Byte) : List Byte :=
  ((scan_rest r).takeWhile (fun b => b != 10)).take 767

/-- Every node is in the bucket of its key, keys are NUL-free, no bucket repeats a key. -/
def store_inv (s : Store) : Prop :=
  ∀ i, (∀ k ∈ (s i).map kv_entry_t.key, hash k = i ∧ 0 ∉ k) ∧ ((s i).map kv_entry_t.key).Nodup

/-- The strings of a node are terminated inside `char key[256]` and `char value[768]`. -/
def entry_fits (e : kv_entry_t) : Prop :=
  e.key.length ≤ 255 ∧ 0 ∉ e.key ∧ e.value.length ≤ 767 ∧ 0 ∉ e.value

instance (e : kv_entry_t) : Decidable (entry_fits e) := by
  unfold entry_fits
  infer_instance

/-- Every node of the table holds two terminated strings. -/
def store_fits (s : Store) : Prop := ∀ i, i < HASH_SIZE → ∀ e ∈ s i, entry_fits e

instance (s : Store) : Decidable (store_fits s) := by
  unfold store_fits
  infer_instance

/-- The request line `SET <key> <value>` with its newline. -/
def set_line (key value : List Byte) : List Byte :=
  bytes "SET " ++ key ++ bytes " " ++ value ++ bytes "\n"

/-- The request line `GET <key>` with its newline. -/
def get_line (key : List Byte) : List Byte := bytes "GET " ++ key ++ bytes "\n"

/-- The SET lines that reach `set_kv`, exactly (see `set_shape_iff_scan`): `SET`, any white
space, a key of 1 to 255 bytes without white space, a separator, a value, then anything.
The separator is at least one white space byte, or nothing at all when the key has exactly
255 bytes (`%255s` stops there and what follows is the value). The value is not empty,
holds no newline and begins with a byte that is not white space. -/
def set_shape (inp : List Byte) : Prop :=
  ∃ ws1 key ws2 value tail, inp = bytes "SET" ++ ws1 ++ key ++ ws2 ++ value ++ tail ∧
    (∀ b ∈ ws1, isspace b = true) ∧ key ≠ [] ∧ (∀ b ∈ key, isspace b = false) ∧
    key.length ≤ 255 ∧ (∀ b ∈ ws2, isspace b = true) ∧ (ws2 ≠ [] ∨ key.length = 255) ∧
    value ≠ [] ∧ 10 ∉ value ∧ (∀ b, value.head? = some b → isspace b = false)

/-- The GET lines that reach `get_kv`, exactly (see `get_shape_iff_scan`): `GET`, any white
space, a key of at least one byte without white space, then anything. -/
def get_shape (inp : List Byte) : Prop :=
  ∃ ws1 key tail, inp = bytes "GET" ++ ws1 ++ key ++ tail ∧
    (∀ b ∈ ws1, isspace b = true) ∧ key ≠ [] ∧ (∀ b ∈ key, isspace b = false)

/-- The SET grammar in the words of the specification: keyword, one space, key without
white space, one space, non-empty value, newline. -/
def spec_set_line (line : List Byte) : Prop :=
  ∃ key value, line = set_line key value ∧ key ≠ [] ∧ (∀ b ∈ key, isspace b = false) ∧
    value ≠ [] ∧ 10 ∉ value

/-- The GET grammar in the words of the specification: keyword, one space, key without
white space, nothing behind the key but the newline. -/
def spec_get_line (line : List Byte) : Prop :=
  ∃ key, line = get_line key ∧ key ≠ [] ∧ (∀ b ∈ key, isspace b = false)

/-- A line that does not begin with the bytes `SET` or `GET`. -/
def no_keyword (buf : List Byte) : Prop := ¬ bytes "SET" <+: buf ∧ ¬ bytes "GET" <+: buf

/-- The line `GET` with white space only behind the keyword. -/
def get_without_key (buf : List Byte) : Prop :=
  ∃ ws, buf = bytes "GET" ++ ws ∧ ∀ b ∈ ws, isspace b = true

/-- A line `SET <key>` without value: white space only around a key of at most 255 bytes
without white space. -/
def set_without_value (buf : List Byte) : Prop :=
  ∃ ws1 key ws2, buf = bytes "SET" ++ ws1 ++ key ++ ws2 ∧ (∀ b ∈ ws1, isspace b = true) ∧
    (∀ b ∈ key, isspace b = false) ∧ 0 ∉ key ∧ key.length ≤ 255 ∧
    (∀ b ∈ ws2, isspace b = true)

/-- The loop `while (1) { if (!handle_client(client_fd)) break; }` of `main` on one accepted
connection, with the bytes written so far; `none` when the fuel runs out before the loop
ends. -/
def session_loop : Nat → List ReadEv → Store → List Byte → Option (List Byte × Store)
  | 0, _, _, _ => none
  | fuel + 1, client_fd, s, out =>
    let r := handle_client client_fd s
    if r.ret = 0 then some (out ++ r.out, r.store)
    else session_loop fuel r.fd r.store (out ++ r.out)

/-- One session: everything written to the client and the table when the connection is
closed. Every round but the last takes at least one read from the descriptor, so its
length and one more is fuel enough. -/
def session (client_fd : List ReadEv) (s : Store) : Option (List Byte × Store) :=
  session_loop (client_fd.length + 1) client_fd s []

/-- The table after `handle_client` has run on each of the descriptors in turn. -/
def run_requests (s : Store) (fds : List (List ReadEv)) : Store :=
  fds.foldl (fun st fd => (handle_client fd st).store) s

/-- The key that `handle_client` hands to `get_kv` on this descriptor, when it takes its
second branch (the first `sscanf` does not return 2, `sscanf(buf, "GET %255s", key) == 1`). -/
def get_request (client_fd : List ReadEv) : Option (List Byte) :=
  let l := read_line client_fd BUF_SIZE
  if l.n ≤ 0 then none
  else if (sscanf l.buf FMT_SET).1 = 2 then none
  else
    let r2 := sscanf l.buf FMT_GET
    if r2.1 = 1 then some (r2.2.getD 0 []) else none

/-- The bytes that a descriptor delivers, interrupted reads left out. -/
def stream_bytes : List ReadEv → List Byte
  | [] => []
  | ReadEv.byte c :: fd => c :: stream_bytes fd
  | _ :: fd => stream_bytes fd

/-- The shortest initial part of a byte stream that ends with a newline, or the whole
stream when it has no newline. -/
def first_line : List Byte → List Byte
  | [] => []
  | b :: data => if b = 10 then [b] else b :: first_line data

/-- The request that `handle_client` reads from the bytes to come: their first line, as
far as the line buffer has room. -/
def request (data : List Byte) : List Byte := (first_line data).take (BUF_SIZE - 1)

/-- The bytes that stay on the descriptor behind the request. -/
def after_request (data : List Byte) : List Byte := data.drop (request data).length

/-- The hash of the specification: `h_0 = h`, `h_{i+1} = h_i * 33 + byte_i` over the
unbounded integers, every byte taken as its value `0 .. 255`. -/
def djb2 (h : Nat) : List Byte → Nat
  | [] => h
  | c :: str => djb2 (h * 33 + c) str

/-- A key as `%255s` delivers it: 1 to 255 bytes, no white space, no NUL. -/
def key_ok (k : List Byte) : Prop :=
  k ≠ [] ∧ k.length ≤ 255 ∧ (∀ b ∈ k, isspace b = false) ∧ 0 ∉ k

/-- A value as `%767[^\n]` delivers it: 1 to 767 bytes, no newline, no NUL. -/
def value_ok (v : List Byte) : Prop :=
  v ≠ [] ∧ v.length ≤ 767 ∧ 10 ∉ v ∧ 0 ∉ v

/-- Every node of the table holds such a key and such a value and sits in the bucket of
the hash of its key. -/
def content_inv (s : Store) : Prop :=
  ∀ i, ∀ e ∈ s i, key_ok e.key ∧ value_ok e.value ∧ hash e.key = i

/-! ## The client (`kvstore_client.c`) -/

/-- The function `tolower` of the C locale. -/
def tolower (b : Byte) : Byte := if 65 ≤ b ∧ b ≤ 90 then b + 32 else b

/-- The test `strcasecmp(a, b) == 0`. -/
def strcasecmp_eq (a b : List Byte) : Bool :=
  (cstr a).map tolower == (cstr b).map tolower

/-- The test `strncasecmp(a, b, n) == 0`. -/
def strncasecmp_eq (a b : List Byte) (n : Nat) : Bool :=
  ((cstr a).take n).map tolower == ((cstr b).take n).map tolower

/-- The call `fgets(buf, size, stdin)`: at most `size - 1` bytes, up to and including the
first newline, and what is left of the input; `none` (`NULL`) at the end of the input. -/
def fgets (size : Nat) (stdin : List Byte) : Option (List Byte × List Byte) :=
  let chunk := (first_line stdin).take (size - 1)
  if chunk = [] then none else some (chunk, stdin.drop chunk.length)

/-- What one round of the loop of the client does with its input. -/
inductive ClientAct where
  | eof
  | quit
  | send (data : List Byte)
  | usage
  | overflow
deriving DecidableEq

/-- One round of the loop of the client `main`, up to the `write`: the action taken and
the input left. `overflow` is the case where `strcat(buf, "\n")` has no room in `buf` for
the newline and the terminator. -/
def client_step (stdin : List Byte) : ClientAct × List Byte :=
  match fgets BUF_SIZE stdin with
  | none => (ClientAct.eof, [])
  | some (chunk, rest) =>
    let str := cstr chunk
    let buf := if str.length ≠ 0 ∧ str.getLast? = some 10 then str.dropLast else str
    if strcasecmp_eq buf (bytes "QUIT") then (ClientAct.quit, rest)
    else if strncasecmp_eq buf (bytes "SET ") 4 || strncasecmp_eq buf (bytes "GET ") 4 then
      if buf.length + 1 < BUF_SIZE then (ClientAct.send (buf ++ bytes "\n"), rest)
      else (ClientAct.overflow, rest)
    else (ClientAct.usage, rest)

def MSG_USAGE : List Byte :=
  bytes "Invalid command. Use:\n  SET <key> <value>\n  GET <key>\n  QUIT\n"

/-- What a run of the client leaves: the bytes written to the socket, the bytes printed,
and whether `strcat` wrote past `buf`. -/
structure ClientRun where
  sent : List Byte
  printed : List Byte
  overflow : Bool
deriving DecidableEq

/-- The loop of the client `main`: `sock` is what the socket delivers; `none` when the fuel
runs out before the loop ends. -/
def client_loop : Nat → List Byte → List ReadEv → ClientRun → Option ClientRun
  | 0, _, _, _ => none
  | fuel + 1, stdin, sock, run =>
    let printed := run.printed ++ bytes "> "
    match client_step stdin with
    | (ClientAct.eof, _) => some ⟨run.sent, printed, run.overflow⟩
    | (ClientAct.quit, _) => some ⟨run.sent, printed, run.overflow⟩
    | (ClientAct.overflow, _) => some ⟨run.sent, printed, true⟩
    | (ClientAct.usage, rest) =>
      client_loop fuel rest sock ⟨run.sent, printed ++ MSG_USAGE, run.overflow⟩
    | (ClientAct.send data, rest) =>
      let l := read_line sock (BUF_SIZE - 1)
      if l.n ≤ 0 then
        some ⟨run.sent ++ data, printed ++ bytes "Server closed connection\n", run.overflow⟩
      else client_loop fuel rest l.fd ⟨run.sent ++ data, printed ++ cstr l.buf, run.overflow⟩

/-- A run of the client on the operator input `stdin`. Every round but the last takes at
least one byte of input, so its length and one more is fuel enough. -/
def client_main (stdin : List Byte) (sock : List ReadEv) : Option ClientRun :=
  client_loop (stdin.length + 1) stdin sock ⟨[], [], false⟩

/-- Equality of two strings ignoring case. -/
def eq_ignoring_case (a b : List Byte) : Bool := a.map tolower == b.map tolower

/-- The line begins with the bytes `p`, ignoring case. -/
def begins_ignoring_case (line p : List Byte) : Bool :=
  (line.take p.length).map tolower == p.map tolower

/-- The line is a command for the server: it begins with `SET ` or `GET `, ignoring case. -/
def is_command (line : List Byte) : Bool :=
  begins_ignoring_case line (bytes "SET ") || begins_ignoring_case line (bytes "GET ")

/-! ## Strings and buckets -/

theorem cstr_of_nul_free {p : List Byte} (h : 0 ∉ p) : cstr p = p := by
  unfold cstr
  rw [List.takeWhile_eq_self_iff]
  intro x hx
  have : x ≠ 0 := fun e => h (e ▸ hx)
  simpa using this

theorem nul_not_mem_cstr (p : List Byte) : 0 ∉ cstr p := by
  intro h
  have := List.mem_takeWhile_imp h
  simp at this

theorem cstr_cstr (p : List Byte) : cstr (cstr p) = cstr p :=
  cstr_of_nul_free (nul_not_mem_cstr p)

theorem strncpy_z_of_fits {src : List Byte} {n : Nat} (h0 : 0 ∉ src) (hn : src.length ≤ n) :
    strncpy_z src n = src := by
  unfold strncpy_z
  rw [cstr_of_nul_free h0, List.take_of_length_le hn]

theorem hash_lt (str : List Byte) : hash str < HASH_SIZE :=
  Nat.mod_lt _ (by decide)

theorem put_same (s : Store) (idx : Nat) (c : List kv_entry_t) : s.put idx c idx = c := by
  simp [Store.put]

theorem put_other (s : Store) {idx i : Nat} (c : List kv_entry_t) (h : i ≠ idx) :
    s.put idx c i = s i := by
  simp [Store.put, h]

/-- A successful walk of `set_kv` keeps the keys of the chain. -/
theorem set_kv_walk_keys {key value : List Byte} :
    ∀ {c c1 : List kv_entry_t}, set_kv_walk key value c = some c1 →
      c1.map kv_entry_t.key = c.map kv_entry_t.key
  | [], _, h => by simp [set_kv_walk] at h
  | curr :: next, c1, h => by
    unfold set_kv_walk at h
    split at h
    · cases h; rfl
    · cases hw : set_kv_walk key value next with
      | none => simp [hw] at h
      | some c2 =>
        simp [hw] at h
        subst h
        simp [set_kv_walk_keys hw]

/-- After a successful walk of `set_kv` the lookup finds the copied value. -/
theorem get_after_walk {key value : List Byte} :
    ∀ {c c1 : List kv_entry_t}, set_kv_walk key value c = some c1 →
      get_kv_walk key c1 = some (strncpy_z value 767)
  | [], _, h => by simp [set_kv_walk] at h
  | curr :: next, c1, h => by
    unfold set_kv_walk at h
    split at h
    · next hk => cases h; simp [get_kv_walk, hk]
    · next hk =>
      cases hw : set_kv_walk key value next with
      | none => simp [hw] at h
      | some c2 =>
        simp [hw] at h
        subst h
        simp [get_kv_walk, hk, get_after_walk hw]

/-- The walk of `set_kv` finds a node exactly when the chain holds the key. -/
theorem set_kv_walk_eq_none {key value : List Byte} :
    ∀ {c : List kv_entry_t}, set_kv_walk key value c = none ↔ cstr key ∉ c.map kv_entry_t.key
  | [] => by simp [set_kv_walk]
  | curr :: next => by
    unfold set_kv_walk
    by_cases hk : curr.key = cstr key
    · simp [hk]
    · have ih := @set_kv_walk_eq_none key value next
      simp [hk, ih, Ne.symm hk]

/-- The walk of `get_kv` fails exactly when the chain does not hold the key. -/
theorem get_kv_walk_eq_none {key : List Byte} :
    ∀ {c : List kv_entry_t}, get_kv_walk key c = none ↔ cstr key ∉ c.map kv_entry_t.key
  | [] => by simp [get_kv_walk]
  | curr :: next => by
    unfold get_kv_walk
    by_cases hk : curr.key = cstr key
    · simp [hk]
    · have ih := @get_kv_walk_eq_none key next
      simp [hk, ih, Ne.symm hk]

/-- Buckets other than that of the key are not touched by `set_kv`. -/
theorem set_kv_other (s : Store) (key value : List Byte) {i : Nat} (h : i ≠ hash key) :
    set_kv s key value i = s i := by
  unfold set_kv
  cases set_kv_walk key value (s (hash key)) <;> simp [put_other _ _ h]

/-- The keys of the bucket of the key after `set_kv`. -/
theorem set_kv_bucket_keys (s : Store) (key value : List Byte) :
    (set_kv s key value (hash key)).map kv_entry_t.key =
      if cstr key ∈ (s (hash key)).map kv_entry_t.key then (s (hash key)).map kv_entry_t.key
      else strncpy_z key 255 :: (s (hash key)).map kv_entry_t.key := by
  unfold set_kv
  cases hw : set_kv_walk key value (s (hash key)) with
  | none =>
    have := set_kv_walk_eq_none.1 hw
    simp [put_same, this]
  | some c =>
    have hm : cstr key ∈ (s (hash key)).map kv_entry_t.key := by
      by_contra hn
      rw [set_kv_walk_eq_none.2 hn] at hw
      cases hw
    simp only [put_same, set_kv_walk_keys hw, if_pos hm]

/-- Reading back right after `set_kv`: the copy of the value, as far as the key fits. -/
theorem get_kv_set_kv_same (s : Store) (key value : List Byte) (hk : (cstr key).length ≤ 255) :
    get_kv (set_kv s key value) key = some (strncpy_z value 767) := by
  unfold get_kv set_kv
  cases hw : set_kv_walk key value (s (hash key)) with
  | none =>
    have : strncpy_z key 255 = cstr key := List.take_of_length_le hk
    simp [put_same, get_kv_walk, this]
  | some c => simp [put_same, get_after_walk hw]

/-- Reading back right after `set_kv` with strings that fit the node. -/
theorem get_kv_set_kv_fits (s : Store) (key value : List Byte)
    (hk : key.length ≤ 255) (hv : value.length ≤ 767) (hk0 : 0 ∉ key) (hv0 : 0 ∉ value) :
    get_kv (set_kv s key value) key = some value := by
  rw [get_kv_set_kv_same s key value (by rw [cstr_of_nul_free hk0]; exact hk),
    strncpy_z_of_fits hv0 hv]

/-! ## The scanner on the two formats -/

theorem dropWhile_dropWhile_same (p : Byte → Bool) :
    ∀ l : List Byte, (l.dropWhile p).dropWhile p = l.dropWhile p
  | [] => rfl
  | a :: l => by
    by_cases h : p a = true
    · rw [List.dropWhile_cons_of_pos h]
      exact dropWhile_dropWhile_same p l
    · rw [List.dropWhile_cons_of_neg h, List.dropWhile_cons_of_neg h]

/-- The scan with `"SET %255s %767[^\n]"` of an input that starts with `SET`. -/
theorem sscanf_go_SET_eq (r : List Byte) :
    sscanf_go FMT_SET (83 :: 69 :: 84 :: r) 0 [] =
      if scan_key r = [] then (-1, [])
      else if scan_rest r = [] then (1, [scan_key r])
      else if scan_value r = [] then (1, [scan_key r])
      else (2, [scan_key r, scan_value r]) := by
  simp only [FMT_SET, sscanf_go, input_failure, dropWhile_dropWhile_same, scan_key, scan_rest,
    scan_value]
  simp

/-- The scan with `"GET %255s"` of an input that starts with `GET`. -/
theorem sscanf_go_GET_eq (r : List Byte) :
    sscanf_go FMT_GET (71 :: 69 :: 84 :: r) 0 [] =
      if scan_key r = [] then (-1, []) else (1, [scan_key r]) := by
  simp only [FMT_GET, sscanf_go, input_failure, dropWhile_dropWhile_same, scan_key]
  simp

/-- A format that starts with three ordinary characters converts nothing on an input that
does not start with them. -/
theorem sscanf_go_lit_ne (c1 c2 c3 : Byte) (fmt : List Directive) (inp : List Byte)
    (h : ¬ [c1, c2, c3] <+: inp) (m : Int) (hm : 0 < m) :
    (sscanf_go (Directive.lit c1 :: Directive.lit c2 :: Directive.lit c3 :: fmt) inp 0 []).1
      ≠ m := by
  rcases inp with _ | ⟨b1, _ | ⟨b2, _ | ⟨b3, r⟩⟩⟩
  · simp [sscanf_go, input_failure]; omega
  · simp only [sscanf_go, input_failure]
    split <;> simp <;> omega
  · simp only [sscanf_go, input_failure]
    split <;> [split; skip] <;> simp <;> omega
  · simp only [sscanf_go]
    by_cases h1 : b1 = c1
    · by_cases h2 : b2 = c2
      · by_cases h3 : b3 = c3
        · subst h1 h2 h3
          exact absurd (List.prefix_append [b1, b2, b3] r) h
        · simp [h1, h2, h3]; omega
      · simp [h1, h2]; omega
    · simp [h1]; omega

theorem scan_key_length (r : List Byte) : (scan_key r).length ≤ 255 :=
  List.length_take_le _ _

theorem scan_value_length (r : List Byte) : (scan_value r).length ≤ 767 :=
  List.length_take_le _ _

theorem scan_key_subset (r : List Byte) : scan_key r ⊆ r :=
  fun _ hx => (List.dropWhile_sublist _).subset
    ((List.takeWhile_sublist _).subset (List.mem_of_mem_take hx))

/-- When the first `sscanf` of `handle_client` returns 2: the shape of the line and the
strings assigned. -/
theorem sscanf_SET_two {buf : List Byte} (h : (sscanf buf FMT_SET).1 = 2) :
    ∃ r, cstr buf = 83 :: 69 :: 84 :: r ∧ scan_key r ≠ [] ∧ scan_rest r ≠ [] ∧
      scan_value r ≠ [] ∧ sscanf buf FMT_SET = (2, [scan_key r, scan_value r]) := by
  unfold sscanf at h ⊢
  by_cases hp : [83, 69, 84] <+: cstr buf
  · obtain ⟨r, hr⟩ := hp
    refine ⟨r, hr.symm, ?_⟩
    rw [← hr] at h ⊢
    simp only [List.cons_append, List.nil_append] at h ⊢
    rw [sscanf_go_SET_eq] at h ⊢
    by_cases h1 : scan_key r = []
    · simp [h1] at h
    · by_cases h2 : scan_rest r = []
      · simp [h1, h2] at h
      · by_cases h3 : scan_value r = []
        · simp [h1, h2, h3] at h
        · simp [h1, h2, h3]
  · exact absurd h (sscanf_go_lit_ne 83 69 84 _ _ hp 2 (by decide))

/-- When the second `sscanf` of `handle_client` returns 1. -/
theorem sscanf_GET_one {buf : List Byte} (h : (sscanf buf FMT_GET).1 = 1) :
    ∃ r, cstr buf = 71 :: 69 :: 84 :: r ∧ scan_key r ≠ [] ∧
      sscanf buf FMT_GET = (1, [scan_key r]) := by
  unfold sscanf at h ⊢
  by_cases hp : [71, 69, 84] <+: cstr buf
  · obtain ⟨r, hr⟩ := hp
    refine ⟨r, hr.symm, ?_⟩
    rw [← hr] at h ⊢
    simp only [List.cons_append, List.nil_append] at h ⊢
    rw [sscanf_go_GET_eq] at h ⊢
    by_cases h1 : scan_key r = []
    · simp [h1] at h
    · simp [h1]
  · exact absurd h (sscanf_go_lit_ne 71 69 84 _ _ hp 1 (by decide))

/-- The key that reaches `set_kv` fits `char key[256]` and is a string. -/
theorem set_request_key {fd : List ReadEv} {k v : List Byte} (h : set_request fd = some (k, v)) :
    k.length ≤ 255 ∧ 0 ∉ k := by
  unfold set_request at h
  simp only at h
  split at h
  · cases h
  · split at h
    · next h2 =>
      obtain ⟨r, hr, _, _, _, he⟩ := sscanf_SET_two h2
      rw [he] at h
      simp only [List.getD_cons_zero, Option.some.injEq, Prod.mk.injEq] at h
      rw [← h.1]
      refine ⟨scan_key_length r, fun h0 => ?_⟩
      have : (0 : Byte) ∈ cstr (read_line fd BUF_SIZE).buf := by
        rw [hr]
        exact List.mem_cons_of_mem _ (List.mem_cons_of_mem _ (List.mem_cons_of_mem _
          (scan_key_subset r h0)))
      exact nul_not_mem_cstr _ this
    · cases h

/-- The table after `handle_client`: changed by `set_kv` in the first branch only. -/
theorem handle_client_store (fd : List ReadEv) (s : Store) :
    (handle_client fd s).store =
      match set_request fd with
      | some kv => set_kv s kv.1 kv.2
      | none => s := by
  unfold handle_client set_request
  simp only
  split
  · rfl
  · split
    · rfl
    · split
      · split
        · split <;> rfl
        · rfl
      · rfl

/-! ## Reading a line and answering -/

/-- The loop of `read_line` on a descriptor that delivers a line that fits the buffer. -/
theorem read_line_loop_wire (maxlen : Nat) (rest : List ReadEv) :
    ∀ (body acc : List Byte), 10 ∉ body → acc.length + body.length + 1 < maxlen →
      read_line_loop maxlen (wire (body ++ [10]) ++ rest) acc =
        ⟨((acc ++ body ++ [10]).length : Nat), acc ++ body ++ [10], rest⟩
  | [], acc, _, hlen => by
    simp only [List.length_nil, Nat.add_zero] at hlen
    simp [wire, read_line_loop, hlen]
  | b :: body, acc, hnl, hlen => by
    have hb : b ≠ 10 := fun e => hnl (e ▸ List.mem_cons_self _ _)
    have hnl2 : 10 ∉ body := fun h => hnl (List.mem_cons_of_mem _ h)
    simp only [List.length_cons] at hlen
    have h1 : acc.length + 1 < maxlen := by omega
    have ih := read_line_loop_wire maxlen rest body (acc ++ [b]) hnl2
      (by simp only [List.length_append, List.length_singleton]; omega)
    have e : wire ((b :: body) ++ [10]) ++ rest
        = ReadEv.byte b :: (wire (body ++ [10]) ++ rest) := rfl
    rw [e, read_line_loop, if_pos h1]
    simp only [hb, if_false]
    rw [ih]
    simp

/-- A newline-terminated line of less than `BUF_SIZE` bytes is delivered whole. -/
theorem read_line_wire (body : List Byte) (rest : List ReadEv) (hnl : 10 ∉ body)
    (hlen : (body ++ [10]).length < BUF_SIZE) :
    read_line (wire (body ++ [10]) ++ rest) BUF_SIZE =
      ⟨((body ++ [10]).length : Nat), body ++ [10], rest⟩ := by
  have := read_line_loop_wire BUF_SIZE rest body [] hnl
    (by simpa using hlen)
  simpa [read_line] using this

theorem isspace_of_mem_nl_free {key : List Byte} (h : ∀ b ∈ key, isspace b = false) :
    10 ∉ key := fun hm => by
  have := h 10 hm
  simp [isspace] at this

/-- The white space directive stops in front of a key. -/
theorem dropWhile_isspace_key {key : List Byte} (rest : List Byte) (hne : key ≠ [])
    (hws : ∀ b ∈ key, isspace b = false) :
    (key ++ rest).dropWhile isspace = key ++ rest := by
  cases key with
  | nil => exact absurd rfl hne
  | cons c key =>
    have : ¬ isspace c = true := by simp [hws c (List.mem_cons_self _ _)]
    exact List.dropWhile_cons_of_neg this

/-- The conversion `%255s` takes a whole key that a white space byte follows. -/
theorem takeWhile_key_space {key : List Byte} (c : Byte) (rest : List Byte)
    (hws : ∀ b ∈ key, isspace b = false) (hc : isspace c = true) :
    (key ++ c :: rest).takeWhile (fun b => !isspace b) = key := by
  rw [List.takeWhile_append_of_pos (by intro b hb; simp [hws b hb])]
  simp [hc]

/-- The strings that the first `sscanf` assigns on `SET <key> <value>` and a newline. -/
theorem scan_SET_line {key value : List Byte} (hk1 : key ≠ []) (hk2 : key.length ≤ 255)
    (hk3 : ∀ b ∈ key, isspace b = false) (hv1 : value ≠ []) (hv2 : value.length ≤ 767)
    (hv3 : 10 ∉ value) (hv4 : ∀ b, value.head? = some b → isspace b = false) :
    scan_key (32 :: (key ++ 32 :: (value ++ [10]))) = key ∧
      scan_rest (32 :: (key ++ 32 :: (value ++ [10]))) = value ++ [10] ∧
      scan_value (32 :: (key ++ 32 :: (value ++ [10]))) = value := by
  have hd : (32 :: (key ++ 32 :: (value ++ [10]))).dropWhile isspace
      = key ++ 32 :: (value ++ [10]) := by
    rw [List.dropWhile_cons_of_pos (by decide)]
    exact dropWhile_isspace_key _ hk1 hk3
  have hkey : scan_key (32 :: (key ++ 32 :: (value ++ [10]))) = key := by
    unfold scan_key
    rw [hd, takeWhile_key_space 32 _ hk3 (by decide), List.take_of_length_le hk2]
  have hrest : scan_rest (32 :: (key ++ 32 :: (value ++ [10]))) = value ++ [10] := by
    unfold scan_rest
    rw [hkey, hd, List.drop_left, List.dropWhile_cons_of_pos (by decide)]
    cases value with
    | nil => exact absurd rfl hv1
    | cons c value =>
      have : ¬ isspace c = true := by simp [hv4 c rfl]
      exact List.dropWhile_cons_of_neg this
  refine ⟨hkey, hrest, ?_⟩
  unfold scan_value
  rw [hrest, List.takeWhile_append_of_pos
    (by intro b hb; have : b ≠ 10 := fun e => hv3 (e ▸ hb); simpa using this)]
  simp [List.take_of_length_le hv2]

/-- The string that `%255s` assigns on `GET <key>` and a newline. -/
theorem scan_GET_line {key : List Byte} (hk1 : key ≠ []) (hk2 : key.length ≤ 255)
    (hk3 : ∀ b ∈ key, isspace b = false) :
    scan_key (32 :: (key ++ [10])) = key := by
  unfold scan_key
  rw [List.dropWhile_cons_of_pos (by decide), dropWhile_isspace_key _ hk1 hk3,
    takeWhile_key_space 10 _ hk3 (by decide), List.take_of_length_le hk2]

/-- A found value is the value of a node of the chain. -/
theorem get_kv_walk_mem {key v : List Byte} :
    ∀ {c : List kv_entry_t}, get_kv_walk key c = some v → ∃ e ∈ c, e.value = v
  | [], h => by simp [get_kv_walk] at h
  | curr :: next, h => by
    unfold get_kv_walk at h
    split at h
    · cases h
      exact ⟨curr, List.mem_cons_self _ _, rfl⟩
    · obtain ⟨e, he, hv⟩ := get_kv_walk_mem h
      exact ⟨e, List.mem_cons_of_mem _ he, hv⟩

/-- The answer to a found value: the value and a newline, `snprintf` truncating nothing. -/
theorem answer_value {val : List Byte} (h0 : 0 ∉ val) (hl : val.length ≤ 767) :
    write_all (snprintf_line BUF_SIZE val).1 (snprintf_line BUF_SIZE val).2.toNat
      = val ++ [10] ∧ 0 < (snprintf_line BUF_SIZE val).2 := by
  unfold snprintf_line write_all
  simp only [cstr_of_nul_free h0, BUF_SIZE]
  have h1 : (val ++ [10]).length ≤ 1024 - 1 := by simp; omega
  rw [List.take_of_length_le h1]
  constructor
  · apply List.take_of_length_le
    simp
  · omega

/-- The first branch of `handle_client`. -/
theorem handle_client_SET (fd : List ReadEv) (s : Store) (k v : List Byte)
    (hn : 0 < (read_line fd BUF_SIZE).n)
    (h : sscanf (read_line fd BUF_SIZE).buf FMT_SET = (2, [k, v])) :
    handle_client fd s = ⟨1, bytes "OK\n", set_kv s k v, (read_line fd BUF_SIZE).fd⟩ := by
  unfold handle_client
  simp only [not_le.2 hn, if_false, h, if_true, List.getD_cons_zero]
  rfl

/-- The second branch of `handle_client`. -/
theorem handle_client_GET (fd : List ReadEv) (s : Store) (k : List Byte)
    (hn : 0 < (read_line fd BUF_SIZE).n)
    (h1 : (sscanf (read_line fd BUF_SIZE).buf FMT_SET).1 ≠ 2)
    (h2 : sscanf (read_line fd BUF_SIZE).buf FMT_GET = (1, [k])) :
    handle_client fd s =
      match get_kv s k with
      | some val =>
        if 0 < (snprintf_line BUF_SIZE val).2 then
          ⟨1, write_all (snprintf_line BUF_SIZE val).1 (snprintf_line BUF_SIZE val).2.toNat, s,
            (read_line fd BUF_SIZE).fd⟩
        else ⟨1, [], s, (read_line fd BUF_SIZE).fd⟩
      | none => ⟨1, bytes "NOT_FOUND\n", s, (read_line fd BUF_SIZE).fd⟩ := by
  unfold handle_client
  simp only [not_le.2 hn, if_false, h1, h2, if_true, List.getD_cons_zero]
  cases get_kv s k <;> rfl

/-- The last branch of `handle_client`: 40 bytes of the message. -/
theorem handle_client_ERR (fd : List ReadEv) (s : Store)
    (hn : 0 < (read_line fd BUF_SIZE).n)
    (h1 : (sscanf (read_line fd BUF_SIZE).buf FMT_SET).1 ≠ 2)
    (h2 : (sscanf (read_line fd BUF_SIZE).buf FMT_GET).1 ≠ 1) :
    handle_client fd s = ⟨1, write_all MSG_ERROR 40, s, (read_line fd BUF_SIZE).fd⟩ := by
  unfold handle_client
  simp only [not_le.2 hn, if_false, h1, h2]

theorem set_line_eq (key value : List Byte) :
    set_line key value = (83 :: 69 :: 84 :: 32 :: (key ++ 32 :: value)) ++ [10] := by
  have h1 : bytes "SET " = [83, 69, 84, 32] := by decide
  have h2 : bytes " " = [32] := by decide
  have h3 : bytes "\n" = [10] := by decide
  simp [set_line, h1, h2, h3]

theorem get_line_eq (key : List Byte) :
    get_line key = (71 :: 69 :: 84 :: 32 :: key) ++ [10] := by
  have h1 : bytes "GET " = [71, 69, 84, 32] := by decide
  have h3 : bytes "\n" = [10] := by decide
  simp [get_line, h1, h3]

/-- What `handle_client` reads and scans on `GET <key>` and a newline. -/
theorem scan_get_line (rest : List ReadEv) {key : List Byte} (hk1 : key ≠ [])
    (hk2 : key.length ≤ 255) (hk3 : ∀ b ∈ key, isspace b = false) (hk0 : 0 ∉ key) :
    read_line (wire (get_line key) ++ rest) BUF_SIZE
        = ⟨((get_line key).length : Nat), get_line key, rest⟩ ∧
      (sscanf (get_line key) FMT_SET).1 ≠ 2 ∧ sscanf (get_line key) FMT_GET = (1, [key]) := by
  rw [get_line_eq]
  have hnl : 10 ∉ 71 :: 69 :: 84 :: 32 :: key := by
    have := isspace_of_mem_nl_free hk3
    simp [this]
  have hfit : ((71 :: 69 :: 84 :: 32 :: key) ++ [10]).length < BUF_SIZE := by
    simp [BUF_SIZE]
    omega
  have hnul : 0 ∉ (71 :: 69 :: 84 :: 32 :: key) ++ [10] := by
    simp [hk0]
  refine ⟨read_line_wire _ rest hnl hfit, ?_, ?_⟩
  · unfold sscanf
    rw [cstr_of_nul_free hnul]
    apply sscanf_go_lit_ne 83 69 84 _ _ _ 2 (by decide)
    rintro ⟨t, ht⟩
    simp at ht
  · unfold sscanf
    rw [cstr_of_nul_free hnul]
    have e : (71 :: 69 :: 84 :: 32 :: key) ++ [10] = 71 :: 69 :: 84 :: (32 :: (key ++ [10])) := by
      simp
    rw [e, sscanf_go_GET_eq, scan_GET_line hk1 hk2 hk3]
    simp [hk1]

/-! ## The lines that the scanner accepts -/

theorem bytes_SET : bytes "SET" = [83, 69, 84] := by decide

theorem bytes_GET : bytes "GET" = [71, 69, 84] := by decide

theorem scan_key_initial (r : List Byte) : scan_key r <+: r.dropWhile isspace :=
  (List.take_prefix _ _).trans (List.takeWhile_prefix _)

/-- The input behind the keyword: skipped white space, the key, what follows the key. -/
theorem scan_key_split (r : List Byte) :
    r = r.takeWhile isspace ++ scan_key r ++
      (r.dropWhile isspace).drop (scan_key r).length := by
  have h1 : scan_key r = (r.dropWhile isspace).take (scan_key r).length :=
    List.prefix_iff_eq_take.1 (scan_key_initial r)
  have h2 := List.take_append_drop (scan_key r).length (r.dropWhile isspace)
  rw [← h1] at h2
  rw [List.append_assoc, h2, List.takeWhile_append_dropWhile]

/-- What follows the key: skipped white space, the value, what follows the value. -/
theorem scan_value_split (r : List Byte) :
    (r.dropWhile isspace).drop (scan_key r).length =
      ((r.dropWhile isspace).drop (scan_key r).length).takeWhile isspace ++ scan_value r ++
        (scan_rest r).drop (scan_value r).length := by
  have hp : scan_value r <+: scan_rest r :=
    (List.take_prefix _ _).trans (List.takeWhile_prefix _)
  have h1 : scan_value r = (scan_rest r).take (scan_value r).length :=
    List.prefix_iff_eq_take.1 hp
  have h2 := List.take_append_drop (scan_value r).length (scan_rest r)
  rw [← h1] at h2
  rw [List.append_assoc, h2]
  exact (List.takeWhile_append_dropWhile _ _).symm

theorem scan_key_no_space (r : List Byte) : ∀ b ∈ scan_key r, isspace b = false := by
  intro b hb
  have := List.mem_takeWhile_imp (List.mem_of_mem_take hb)
  simpa using this

theorem scan_value_no_newline (r : List Byte) : 10 ∉ scan_value r := by
  intro hb
  have := List.mem_takeWhile_imp (List.mem_of_mem_take hb)
  simp at this

/-- The first byte that `dropWhile` leaves does not satisfy the test. -/
theorem dropWhile_head_false (p : Byte → Bool) :
    ∀ (l : List Byte) (c : Byte) (t : List Byte), l.dropWhile p = c :: t → p c = false
  | [], _, _, h => by simp at h
  | a :: l, c, t, h => by
    by_cases ha : p a = true
    · rw [List.dropWhile_cons_of_pos ha] at h
      exact dropWhile_head_false p l c t h
    · rw [List.dropWhile_cons_of_neg ha] at h
      cases h
      simpa using ha

theorem drop_length_takeWhile (p : Byte → Bool) :
    ∀ l : List Byte, l.drop (l.takeWhile p).length = l.dropWhile p
  | [] => rfl
  | a :: l => by
    by_cases ha : p a = true
    · rw [List.takeWhile_cons_of_pos ha, List.dropWhile_cons_of_pos ha, List.length_cons,
        List.drop_succ_cons]
      exact drop_length_takeWhile p l
    · rw [List.takeWhile_cons_of_neg ha, List.dropWhile_cons_of_neg ha]
      rfl

/-- Behind a key that `%255s` took whole, a value is found only across white space. -/
theorem scan_separator (r : List Byte) (hrest : scan_rest r ≠ []) :
    ((r.dropWhile isspace).drop (scan_key r).length).takeWhile isspace ≠ [] ∨
      (scan_key r).length = 255 := by
  by_cases hlen : (scan_key r).length = 255
  · exact Or.inr hlen
  · left
    have hle := scan_key_length r
    have hk : scan_key r = (r.dropWhile isspace).takeWhile (fun b => !isspace b) := by
      unfold scan_key at hlen hle ⊢
      apply List.take_of_length_le
      rw [List.length_take] at hlen hle
      omega
    rw [hk, drop_length_takeWhile]
    unfold scan_rest at hrest
    rw [hk, drop_length_takeWhile] at hrest
    cases hd : (r.dropWhile isspace).dropWhile (fun b => !isspace b) with
    | nil => rw [hd] at hrest; exact absurd rfl hrest
    | cons c t =>
      have hc := dropWhile_head_false _ _ c t hd
      have hc2 : isspace c = true := by simpa using hc
      simp [hc2]

/-- The value that `%767[^\n]` takes begins with a byte that is not white space. -/
theorem scan_value_head (r : List Byte) :
    ∀ b, (scan_value r).head? = some b → isspace b = false := by
  intro b hb
  unfold scan_value at hb
  cases hd : scan_rest r with
  | nil => simp [hd] at hb
  | cons c t =>
    have hc : isspace c = false := by
      unfold scan_rest at hd
      exact dropWhile_head_false _ _ c t hd
    have hc10 : c ≠ 10 := fun e => by
      rw [e] at hc
      simp [isspace] at hc
    rw [hd, List.takeWhile_cons_of_pos (by simpa using hc10)] at hb
    simp only [List.take_succ_cons, List.head?_cons, Option.some.injEq] at hb
    rw [← hb]
    exact hc

/-- A line on which the first `sscanf` returns 2 has the SET shape. -/
theorem set_shape_of_scan {buf : List Byte} (h : (sscanf buf FMT_SET).1 = 2) :
    set_shape (cstr buf) := by
  obtain ⟨r, hr, hk, hrest, hv, _⟩ := sscanf_SET_two h
  refine ⟨r.takeWhile isspace, scan_key r,
    ((r.dropWhile isspace).drop (scan_key r).length).takeWhile isspace, scan_value r,
    (scan_rest r).drop (scan_value r).length, ?_, fun b hb => List.mem_takeWhile_imp hb, hk,
    scan_key_no_space r, scan_key_length r, fun b hb => List.mem_takeWhile_imp hb,
    scan_separator r hrest, hv, scan_value_no_newline r, scan_value_head r⟩
  have e1 := scan_key_split r
  have e2 := scan_value_split r
  rw [hr, bytes_SET]
  simp only [List.cons_append, List.nil_append, List.append_assoc] at e1 e2 ⊢
  rw [← e2, ← e1]

/-- On a line of the SET shape the first `sscanf` returns 2. -/
theorem scan_of_set_shape {buf : List Byte} (h : set_shape (cstr buf)) :
    (sscanf buf FMT_SET).1 = 2 := by
  obtain ⟨ws1, key, ws2, value, tail, e, hws1, hk, hkey, hlen, hws2, hsep, hv, _, hvh⟩ := h
  unfold sscanf
  rw [e, bytes_SET]
  have er : [83, 69, 84] ++ ws1 ++ key ++ ws2 ++ value ++ tail
      = 83 :: 69 :: 84 :: (ws1 ++ (key ++ (ws2 ++ (value ++ tail)))) := by simp
  rw [er, sscanf_go_SET_eq]
  have hd1 : (ws1 ++ (key ++ (ws2 ++ (value ++ tail)))).dropWhile isspace
      = key ++ (ws2 ++ (value ++ tail)) := by
    rw [List.dropWhile_append_of_pos hws1, dropWhile_isspace_key _ hk hkey]
  have hkey1 : scan_key (ws1 ++ (key ++ (ws2 ++ (value ++ tail)))) = key := by
    unfold scan_key
    rw [hd1, List.takeWhile_append_of_pos (by intro b hb; simp [hkey b hb])]
    rcases hsep with hsep | hsep
    · cases ws2 with
      | nil => exact absurd rfl hsep
      | cons c ws2 =>
        have hc : isspace c = true := hws2 c (List.mem_cons_self _ _)
        simp [hc, List.take_of_length_le hlen]
    · rw [← hsep, List.take_left]
  have hrest : scan_rest (ws1 ++ (key ++ (ws2 ++ (value ++ tail)))) = value ++ tail := by
    unfold scan_rest
    rw [hkey1, hd1, List.drop_left, List.dropWhile_append_of_pos hws2]
    cases value with
    | nil => exact absurd rfl hv
    | cons c value =>
      have : ¬ isspace c = true := by simp [hvh c rfl]
      exact List.dropWhile_cons_of_neg this
  have hval : scan_value (ws1 ++ (key ++ (ws2 ++ (value ++ tail)))) ≠ [] := by
    unfold scan_value
    rw [hrest]
    cases value with
    | nil => exact absurd rfl hv
    | cons c value =>
      have hc : isspace c = false := hvh c rfl
      have hc10 : c ≠ 10 := fun e => by
        rw [e] at hc
        simp [isspace] at hc
      rw [List.cons_append, List.takeWhile_cons_of_pos (by simpa using hc10)]
      simp
  have hrest2 : scan_rest (ws1 ++ (key ++ (ws2 ++ (value ++ tail)))) ≠ [] := by
    rw [hrest]
    simp [hv]
  rw [hkey1] at *
  simp [hk, hrest2, hval]

/-- The first `sscanf` returns 2 exactly on the lines of the SET shape. -/
theorem set_shape_iff_scan (buf : List Byte) :
    set_shape (cstr buf) ↔ (sscanf buf FMT_SET).1 = 2 :=
  ⟨scan_of_set_shape, set_shape_of_scan⟩

/-- A line on which the second `sscanf` returns 1 has the GET shape. -/
theorem get_shape_of_scan {buf : List Byte} (h : (sscanf buf FMT_GET).1 = 1) :
    get_shape (cstr buf) := by
  obtain ⟨r, hr, hk, _⟩ := sscanf_GET_one h
  refine ⟨r.takeWhile isspace, scan_key r, (r.dropWhile isspace).drop (scan_key r).length, ?_,
    fun b hb => List.mem_takeWhile_imp hb, hk, scan_key_no_space r⟩
  have e1 := scan_key_split r
  rw [hr, bytes_GET]
  simp only [List.cons_append, List.nil_append, List.append_assoc] at e1 ⊢
  rw [← e1]

/-- On a line of the GET shape the first `sscanf` does not return 2 and the second
returns 1. -/
theorem scan_of_get_shape {buf : List Byte} (h : get_shape (cstr buf)) :
    (sscanf buf FMT_SET).1 ≠ 2 ∧ (sscanf buf FMT_GET).1 = 1 := by
  obtain ⟨ws1, key, tail, e, hws1, hk, hkey⟩ := h
  unfold sscanf
  rw [e, bytes_GET]
  constructor
  · apply sscanf_go_lit_ne 83 69 84 _ _ _ 2 (by decide)
    rintro ⟨t, ht⟩
    simp at ht
  · have er : [71, 69, 84] ++ ws1 ++ key ++ tail = 71 :: 69 :: 84 :: (ws1 ++ (key ++ tail)) := by
      simp
    rw [er, sscanf_go_GET_eq]
    have hkey1 : scan_key (ws1 ++ (key ++ tail)) ≠ [] := by
      unfold scan_key
      rw [List.dropWhile_append_of_pos hws1, dropWhile_isspace_key _ hk hkey]
      cases key with
      | nil => exact absurd rfl hk
      | cons c key =>
        have hc : isspace c = false := hkey c (List.mem_cons_self _ _)
        simp [hc]
    simp [hkey1]

/-- The second `sscanf` returns 1 exactly on the lines of the GET shape. -/
theorem get_shape_iff_scan (buf : List Byte) :
    get_shape (cstr buf) ↔ (sscanf buf FMT_GET).1 = 1 :=
  ⟨fun h => (scan_of_get_shape h).2, get_shape_of_scan⟩

/-- What the GET branch writes for a found value is never the bytes of the error branch:
it ends with the newline, or fills the buffer of `snprintf`. -/
theorem answer_ne_error (val : List Byte) :
    write_all (snprintf_line BUF_SIZE val).1 (snprintf_line BUF_SIZE val).2.toNat
      ≠ write_all MSG_ERROR 40 := by
  have hE : (write_all MSG_ERROR 40).length = 40 ∧ (write_all MSG_ERROR 40).getLast? = some 121 := by
    decide
  intro h
  unfold snprintf_line write_all at h
  simp only [BUF_SIZE, Int.toNat_ofNat, List.take_take] at h
  by_cases hl : (cstr val).length + 1 ≤ 1023
  · have h1 : min ((cstr val).length + 1) (1024 - 1) = (cstr val).length + 1 := by omega
    rw [h1, List.take_of_length_le (by simp)] at h
    have h2 := congrArg List.getLast? h
    unfold write_all at hE
    rw [hE.2] at h2
    simp at h2
  · have h1 : min ((cstr val).length + 1) (1024 - 1) = 1023 := by omega
    rw [h1] at h
    have h2 := congrArg List.length h
    unfold write_all at hE
    rw [hE.1, List.length_take] at h2
    simp at h2
    omega

theorem not_set_shape_of_no_SET {inp : List Byte} (h : ¬ bytes "SET" <+: inp) :
    ¬ set_shape inp := by
  rintro ⟨ws1, key, ws2, value, tail, e, _⟩
  apply h
  rw [e]
  simp only [List.append_assoc]
  exact List.prefix_append _ _

theorem not_get_shape_of_no_GET {inp : List Byte} (h : ¬ bytes "GET" <+: inp) :
    ¬ get_shape inp := by
  rintro ⟨ws1, key, tail, e, _⟩
  apply h
  rw [e]
  simp only [List.append_assoc]
  exact List.prefix_append _ _

theorem cstr_initial (buf : List Byte) : cstr buf <+: buf := List.takeWhile_prefix _

/-- Neither scan converts anything on a line that does not begin with `SET` or `GET`. -/
theorem scan_no_keyword {buf : List Byte} (h : no_keyword buf) :
    (sscanf buf FMT_SET).1 ≠ 2 ∧ (sscanf buf FMT_GET).1 ≠ 1 := by
  rw [no_keyword, bytes_SET, bytes_GET] at h
  exact ⟨sscanf_go_lit_ne 83 69 84 _ _ (fun hp => h.1 (hp.trans (cstr_initial buf))) 2
      (by decide),
    sscanf_go_lit_ne 71 69 84 _ _ (fun hp => h.2 (hp.trans (cstr_initial buf))) 1 (by decide)⟩

theorem nul_not_mem_of_isspace {ws : List Byte} (h : ∀ b ∈ ws, isspace b = true) : 0 ∉ ws :=
  fun hm => by
    have := h 0 hm
    simp [isspace] at this

theorem takeWhile_not_space_of_space {ws : List Byte} (h : ∀ b ∈ ws, isspace b = true) :
    ws.takeWhile (fun b => !isspace b) = [] := by
  cases ws with
  | nil => rfl
  | cons c ws =>
    have := h c (List.mem_cons_self _ _)
    simp [this]

/-- Neither scan succeeds on `GET` followed by white space only. -/
theorem scan_get_without_key {buf : List Byte} (h : get_without_key buf) :
    (sscanf buf FMT_SET).1 ≠ 2 ∧ (sscanf buf FMT_GET).1 ≠ 1 := by
  obtain ⟨ws, e, hws⟩ := h
  rw [bytes_GET] at e
  subst e
  have hnul : 0 ∉ [71, 69, 84] ++ ws := by
    simp [nul_not_mem_of_isspace hws]
  constructor
  · unfold sscanf
    rw [cstr_of_nul_free hnul]
    apply sscanf_go_lit_ne 83 69 84 _ _ _ 2 (by decide)
    rintro ⟨t, ht⟩
    simp at ht
  · unfold sscanf
    rw [cstr_of_nul_free hnul]
    have hd : ws.dropWhile isspace = [] := List.dropWhile_eq_nil_iff.2 hws
    have hk : scan_key ws = [] := by simp [scan_key, hd]
    show (sscanf_go FMT_GET (71 :: 69 :: 84 :: ws) 0 []).1 ≠ 1
    rw [sscanf_go_GET_eq, if_pos hk]
    decide

/-- Neither scan succeeds on `SET`, a key that fits and white space only. -/
theorem scan_set_without_value {buf : List Byte} (h : set_without_value buf) :
    (sscanf buf FMT_SET).1 ≠ 2 ∧ (sscanf buf FMT_GET).1 ≠ 1 := by
  obtain ⟨ws1, key, ws2, e, hws1, hkey, hk0, hlen, hws2⟩ := h
  rw [bytes_SET] at e
  subst e
  have hnul : 0 ∉ [83, 69, 84] ++ ws1 ++ key ++ ws2 := by
    simp [nul_not_mem_of_isspace hws1, nul_not_mem_of_isspace hws2, hk0]
  have hd2 : ws2.dropWhile isspace = [] := List.dropWhile_eq_nil_iff.2 hws2
  constructor
  · unfold sscanf
    rw [cstr_of_nul_free hnul]
    show (sscanf_go FMT_SET (83 :: 69 :: 84 :: (ws1 ++ key ++ ws2)) 0 []).1 ≠ 2
    rw [sscanf_go_SET_eq]
    have hd : (ws1 ++ key ++ ws2).dropWhile isspace = (key ++ ws2).dropWhile isspace := by
      rw [List.append_assoc, List.dropWhile_append_of_pos hws1]
    by_cases hk : key = []
    · have hkey0 : scan_key (ws1 ++ key ++ ws2) = [] := by
        unfold scan_key
        rw [hd, hk, List.nil_append, hd2]
        rfl
      rw [if_pos hkey0]
      decide
    · have hd1 : (ws1 ++ key ++ ws2).dropWhile isspace = key ++ ws2 := by
        rw [hd, dropWhile_isspace_key _ hk hkey]
      have hkey1 : scan_key (ws1 ++ key ++ ws2) = key := by
        unfold scan_key
        rw [hd1, List.takeWhile_append_of_pos (by intro b hb; simp [hkey b hb]),
          takeWhile_not_space_of_space hws2, List.append_nil, List.take_of_length_le hlen]
      have hrest : scan_rest (ws1 ++ key ++ ws2) = [] := by
        unfold scan_rest
        rw [hkey1, hd1, List.drop_left, hd2]
      rw [hkey1, if_neg hk, if_pos hrest]
      simp
  · unfold sscanf
    rw [cstr_of_nul_free hnul]
    apply sscanf_go_lit_ne 71 69 84 _ _ _ 1 (by decide)
    rintro ⟨t, ht⟩
    simp at ht

/-! ## The loop of `read_line` on any descriptor -/

/-- The count that `read_line` returns is -1 or at least the number of bytes it started
with. -/
theorem read_line_loop_n (maxlen : Nat) :
    ∀ (fd : List ReadEv) (acc : List Byte),
      (read_line_loop maxlen fd acc).n = -1 ∨
        ((acc.length : Int) ≤ (read_line_loop maxlen fd acc).n ∧
          (read_line_loop maxlen fd acc).n = ((read_line_loop maxlen fd acc).buf.length : Nat))
  | [], acc => by simp [read_line_loop]
  | ev :: fd, acc => by
    by_cases hlen : acc.length + 1 < maxlen
    · cases ev with
      | eintr =>
        rw [read_line_loop, if_pos hlen]
        exact read_line_loop_n maxlen fd acc
      | err =>
        rw [read_line_loop, if_pos hlen]
        exact Or.inl rfl
      | byte c =>
        rw [read_line_loop, if_pos hlen]
        by_cases hc : c = 10
        · simp [hc]
        · simp only [hc, if_false]
          rcases read_line_loop_n maxlen fd (acc ++ [c]) with h | h
          · exact Or.inl h
          · refine Or.inr ⟨?_, h.2⟩
            have := h.1
            simp only [List.length_append, List.length_singleton] at this
            omega
    · cases ev <;> rw [read_line_loop, if_neg hlen] <;> simp

/-- The reads that `read_line` leaves, and that it takes at least one when it returns more
bytes than it started with or an error. -/
theorem read_line_loop_fd (maxlen : Nat) :
    ∀ (fd : List ReadEv) (acc : List Byte),
      (read_line_loop maxlen fd acc).fd.length ≤ fd.length ∧
        ((read_line_loop maxlen fd acc).n ≠ (acc.length : Nat) →
          (read_line_loop maxlen fd acc).fd.length < fd.length)
  | [], acc => by simp [read_line_loop]
  | ev :: fd, acc => by
    by_cases hlen : acc.length + 1 < maxlen
    · cases ev with
      | eintr =>
        rw [read_line_loop, if_pos hlen]
        have := (read_line_loop_fd maxlen fd acc).1
        simp only [List.length_cons]
        exact ⟨by omega, fun _ => by omega⟩
      | err =>
        rw [read_line_loop, if_pos hlen]
        simp
      | byte c =>
        rw [read_line_loop, if_pos hlen]
        by_cases hc : c = 10
        · simp [hc]
        · simp only [hc, if_false, List.length_cons]
          have := (read_line_loop_fd maxlen fd (acc ++ [c])).1
          exact ⟨by omega, fun _ => by omega⟩
    · cases ev <;> rw [read_line_loop, if_neg hlen] <;> simp

/-- A line of at least one byte takes at least one read. -/
theorem read_line_fd_lt (fd : List ReadEv) (maxlen : Nat) (h : 0 < (read_line fd maxlen).n) :
    (read_line fd maxlen).fd.length < fd.length := by
  apply (read_line_loop_fd maxlen fd []).2
  unfold read_line at h
  simp only [List.length_nil]
  intro h0
  rw [h0] at h
  simp at h

/-- The count is 0 exactly when the peer closes before any byte, whatever the number of
interrupted reads. -/
theorem read_line_n_zero (maxlen : Nat) (hm : 1 < maxlen) :
    ∀ (fd : List ReadEv), (read_line fd maxlen).n = 0 ↔ ∀ ev ∈ fd, ev = ReadEv.eintr
  | [] => by simp [read_line, read_line_loop]
  | ev :: fd => by
    have ih := read_line_n_zero maxlen hm fd
    unfold read_line at ih ⊢
    have hlen : ([] : List Byte).length + 1 < maxlen := by simpa using hm
    cases ev with
    | eintr =>
      rw [read_line_loop, if_pos hlen]
      simpa using ih
    | err =>
      rw [read_line_loop, if_pos hlen]
      simp
    | byte c =>
      rw [read_line_loop, if_pos hlen]
      by_cases hc : c = 10
      · simp [hc]
      · simp only [hc, if_false, List.nil_append]
        constructor
        · intro h0
          rcases read_line_loop_n maxlen fd [c] with h | h
          · rw [h0] at h
            simp at h
          · have := h.1
            rw [h0] at this
            simp at this
        · intro h
          have := h (ReadEv.byte c) (List.mem_cons_self _ _)
          simp at this

/-- Bytes followed by a newline or by the end of the stream are delivered as a line, once
one byte is in the buffer. -/
theorem read_line_loop_pos (maxlen : Nat) (rest : List ReadEv) :
    ∀ (data acc : List Byte), acc ≠ [] → (10 ∈ data ∨ rest = []) →
      0 < (read_line_loop maxlen (wire data ++ rest) acc).n
  | [], acc, hacc, h => by
    have hr : rest = [] := by
      rcases h with h | h
      · simp at h
      · exact h
    subst hr
    have : 0 < acc.length := List.length_pos.2 hacc
    simp [wire, read_line_loop]
    omega
  | b :: data, acc, hacc, h => by
    have hl : 0 < acc.length := List.length_pos.2 hacc
    have e : wire (b :: data) ++ rest = ReadEv.byte b :: (wire data ++ rest) := rfl
    rw [e, read_line_loop]
    split
    · by_cases hb : b = 10
      · simp [hb]
      · simp only [hb, if_false]
        apply read_line_loop_pos maxlen rest data (acc ++ [b]) (by simp)
        rcases h with h | h
        · rcases List.mem_cons.1 h with h1 | h1
          · exact absurd h1.symm hb
          · exact Or.inl h1
        · exact Or.inr h
    · simp
      omega

/-- A request of at least one byte, ended by a newline or by the end of the stream, is
delivered with a positive count. -/
theorem read_line_request_pos (data : List Byte) (rest : List ReadEv) (hd : data ≠ [])
    (h : 10 ∈ data ∨ rest = []) : 0 < (read_line (wire data ++ rest) BUF_SIZE).n := by
  cases data with
  | nil => exact absurd rfl hd
  | cons b data =>
    have e : wire (b :: data) ++ rest = ReadEv.byte b :: (wire data ++ rest) := rfl
    unfold read_line
    rw [e, read_line_loop]
    simp only [List.length_nil, Nat.zero_add, BUF_SIZE, Nat.one_lt_ofNat, if_true]
    by_cases hb : b = 10
    · simp [hb]
    · simp only [hb, if_false, List.nil_append]
      apply read_line_loop_pos 1024 rest data [b] (by simp)
      rcases h with h | h
      · rcases List.mem_cons.1 h with h1 | h1
        · exact absurd h1.symm hb
        · exact Or.inl h1
      · exact Or.inr h

/-- What the loop of `read_line` returns and leaves on a descriptor without read error:
the first line of the bytes to come, as far as the buffer has room behind `acc`. -/
theorem read_line_loop_framing (maxlen : Nat) :
    ∀ (fd : List ReadEv) (acc : List Byte), ReadEv.err ∉ fd →
      (read_line_loop maxlen fd acc).buf
          = acc ++ (first_line (stream_bytes fd)).take (maxlen - 1 - acc.length) ∧
        (read_line_loop maxlen fd acc).n = ((read_line_loop maxlen fd acc).buf.length : Nat) ∧
        acc ++ stream_bytes fd
          = (read_line_loop maxlen fd acc).buf ++ stream_bytes (read_line_loop maxlen fd acc).fd
  | [], acc, _ => by simp [read_line_loop, stream_bytes, first_line]
  | ev :: fd, acc, herr => by
    have herr2 : ReadEv.err ∉ fd := fun h => herr (List.mem_cons_of_mem _ h)
    by_cases hlen : acc.length + 1 < maxlen
    · cases ev with
      | eintr =>
        rw [read_line_loop, if_pos hlen]
        exact read_line_loop_framing maxlen fd acc herr2
      | err => exact absurd (List.mem_cons_self _ _) herr
      | byte c =>
        rw [read_line_loop, if_pos hlen]
        have hk : maxlen - 1 - acc.length = (maxlen - 1 - (acc.length + 1)) + 1 := by omega
        by_cases hc : c = 10
        · simp only [hc, if_true, stream_bytes, first_line]
          rw [hk]
          simp
        · simp only [hc, if_false, stream_bytes, first_line]
          obtain ⟨h1, h2, h3⟩ := read_line_loop_framing maxlen fd (acc ++ [c]) herr2
          refine ⟨?_, h2, ?_⟩
          · rw [h1, hk, List.take_succ_cons]
            simp
          · rw [← h3]
            simp
    · have hz : maxlen - 1 - acc.length = 0 := by omega
      cases ev <;> rw [read_line_loop, if_neg hlen] <;> simp [hz]

/-- The return value of `handle_client`. -/
theorem handle_client_ret (fd : List ReadEv) (s : Store) :
    (handle_client fd s).ret = if (read_line fd BUF_SIZE).n ≤ 0 then 0 else 1 := by
  unfold handle_client
  simp only
  split
  · rfl
  · split
    · rfl
    · split
      · split
        · split <;> rfl
        · rfl
      · rfl

/-- The descriptor after `handle_client`. -/
theorem handle_client_fd (fd : List ReadEv) (s : Store) :
    (handle_client fd s).fd = (read_line fd BUF_SIZE).fd := by
  unfold handle_client
  simp only
  split
  · rfl
  · split
    · rfl
    · split
      · split
        · split <;> rfl
        · rfl
      · rfl

theorem run_requests_fixed (s : Store) :
    ∀ (fds : List (List ReadEv)), (∀ fd ∈ fds, set_request fd = none) → run_requests s fds = s
  | [], _ => rfl
  | fd :: fds, h => by
    have h1 : (handle_client fd s).store = s := by
      rw [handle_client_store, h fd (List.mem_cons_self _ _)]
    have ih := run_requests_fixed s fds (fun fd1 h2 => h fd1 (List.mem_cons_of_mem _ h2))
    unfold run_requests at ih ⊢
    rw [List.foldl_cons, h1]
    exact ih

/-- The loop of `read_line` on bytes that arrive without interruption. -/
theorem read_line_loop_wire_all (maxlen : Nat) :
    ∀ (data acc : List Byte),
      read_line_loop maxlen (wire data) acc =
        ⟨((acc ++ (first_line data).take (maxlen - 1 - acc.length)).length : Nat),
          acc ++ (first_line data).take (maxlen - 1 - acc.length),
          wire (data.drop ((first_line data).take (maxlen - 1 - acc.length)).length)⟩
  | [], acc => by simp [wire, read_line_loop, first_line]
  | b :: data, acc => by
    have e : wire (b :: data) = ReadEv.byte b :: wire data := rfl
    by_cases hlen : acc.length + 1 < maxlen
    · have hk : maxlen - 1 - acc.length = (maxlen - 1 - (acc.length + 1)) + 1 := by omega
      rw [e, read_line_loop, if_pos hlen]
      by_cases hb : b = 10
      · simp only [hb, if_true, first_line]
        rw [hk]
        simp
      · simp only [hb, if_false, first_line]
        rw [read_line_loop_wire_all maxlen data (acc ++ [b]), hk, List.take_succ_cons]
        simp
    · have hz : maxlen - 1 - acc.length = 0 := by omega
      rw [e, read_line_loop, if_neg hlen, hz]
      simp [wire]

/-- What `read_line` delivers to `handle_client` from bytes that arrive without
interruption. -/
theorem read_line_wire_all (data : List Byte) :
    read_line (wire data) BUF_SIZE
      = ⟨((request data).length : Nat), request data, wire (after_request data)⟩ := by
  have := read_line_loop_wire_all BUF_SIZE data []
  simpa [read_line, request, after_request] using this

theorem request_n_pos {data : List Byte} (h : request data ≠ []) :
    0 < (read_line (wire data) BUF_SIZE).n := by
  rw [read_line_wire_all]
  have := List.length_pos.2 h
  simp only
  omega

/-- The first branch of `handle_client`, on bytes that arrive without interruption. -/
theorem handle_client_wire_SET (data : List Byte) (s : Store) (k v : List Byte)
    (h0 : request data ≠ []) (h : sscanf (request data) FMT_SET = (2, [k, v])) :
    handle_client (wire data) s = ⟨1, bytes "OK\n", set_kv s k v, wire (after_request data)⟩ := by
  rw [handle_client_SET (wire data) s k v (request_n_pos h0)
    (by rw [read_line_wire_all]; exact h), read_line_wire_all]

/-- The second branch of `handle_client` with a value found, on bytes that arrive without
interruption. -/
theorem handle_client_wire_GET (data : List Byte) (s : Store) (k v : List Byte)
    (h0 : request data ≠ []) (h1 : (sscanf (request data) FMT_SET).1 ≠ 2)
    (h2 : sscanf (request data) FMT_GET = (1, [k])) (hv : get_kv s k = some v)
    (hv0 : 0 ∉ v) (hvl : v.length ≤ 767) :
    handle_client (wire data) s = ⟨1, v ++ bytes "\n", s, wire (after_request data)⟩ := by
  have hc := handle_client_GET (wire data) s k (request_n_pos h0)
    (by rw [read_line_wire_all]; exact h1) (by rw [read_line_wire_all]; exact h2)
  obtain ⟨ha, hpos⟩ := answer_value hv0 hvl
  rw [hc, hv, read_line_wire_all]
  simp only [hpos, if_true, ha]
  rfl

/-- The last branch of `handle_client`, on bytes that arrive without interruption. -/
theorem handle_client_wire_ERR (data : List Byte) (s : Store)
    (h0 : request data ≠ []) (h1 : (sscanf (request data) FMT_SET).1 ≠ 2)
    (h2 : (sscanf (request data) FMT_GET).1 ≠ 1) :
    handle_client (wire data) s
      = ⟨1, write_all MSG_ERROR 40, s, wire (after_request data)⟩ := by
  rw [handle_client_ERR (wire data) s (request_n_pos h0)
    (by rw [read_line_wire_all]; exact h1) (by rw [read_line_wire_all]; exact h2),
    read_line_wire_all]

/-! ## Sessions -/

/-- What `handle_client` does on `SET <key> <value>` and a newline that fit the buffer. -/
theorem handle_client_set_line (s : Store) (rest : List ReadEv) (key value : List Byte)
    (hk1 : key ≠ []) (hk2 : key.length ≤ 255) (hk3 : ∀ b ∈ key, isspace b = false)
    (hk0 : 0 ∉ key) (hv1 : value ≠ []) (hv2 : value.length ≤ 767) (hv3 : 10 ∉ value)
    (hv0 : 0 ∉ value) (hv4 : ∀ b, value.head? = some b → isspace b = false)
    (hfit : (set_line key value).length < BUF_SIZE) :
    handle_client (wire (set_line key value) ++ rest) s
      = ⟨1, bytes "OK\n", set_kv s key value, rest⟩ := by
  rw [set_line_eq] at hfit ⊢
  have hnl : 10 ∉ 83 :: 69 :: 84 :: 32 :: (key ++ 32 :: value) := by
    have := isspace_of_mem_nl_free hk3
    simp [this, hv3]
  have hrl := read_line_wire _ rest hnl hfit
  have hnul : 0 ∉ (83 :: 69 :: 84 :: 32 :: (key ++ 32 :: value)) ++ [10] := by
    simp [hk0, hv0]
  have hscan : sscanf ((83 :: 69 :: 84 :: 32 :: (key ++ 32 :: value)) ++ [10]) FMT_SET
      = (2, [key, value]) := by
    unfold sscanf
    rw [cstr_of_nul_free hnul]
    have e : (83 :: 69 :: 84 :: 32 :: (key ++ 32 :: value)) ++ [10]
        = 83 :: 69 :: 84 :: (32 :: (key ++ 32 :: (value ++ [10]))) := by simp
    rw [e, sscanf_go_SET_eq]
    obtain ⟨e1, e2, e3⟩ := scan_SET_line hk1 hk2 hk3 hv1 hv2 hv3 hv4
    rw [e1, e2, e3]
    simp [hk1, hv1]
  have := handle_client_SET (wire _ ++ rest) s key value
    (by rw [hrl]; simp; omega) (by rw [hrl]; exact hscan)
  rw [this, hrl]

/-- What `handle_client` does on `GET <key>` and a newline when `get_kv` finds a value
that fits `char value[768]`. -/
theorem handle_client_get_line_found (s : Store) (rest : List ReadEv) (key v : List Byte)
    (hk1 : key ≠ []) (hk2 : key.length ≤ 255) (hk3 : ∀ b ∈ key, isspace b = false)
    (hk0 : 0 ∉ key) (hv : get_kv s key = some v) (hv0 : 0 ∉ v) (hvl : v.length ≤ 767) :
    handle_client (wire (get_line key) ++ rest) s = ⟨1, v ++ bytes "\n", s, rest⟩ := by
  obtain ⟨hrl, h1, h2⟩ := scan_get_line rest hk1 hk2 hk3 hk0
  have hn : 0 < (read_line (wire (get_line key) ++ rest) BUF_SIZE).n := by
    rw [hrl, get_line_eq]
    simp
    omega
  have hc := handle_client_GET _ s key hn (by rw [hrl]; exact h1) (by rw [hrl]; exact h2)
  rw [hrl] at hc
  obtain ⟨ha, hpos⟩ := answer_value hv0 hvl
  rw [hc, hv]
  simp only [hpos, if_true, ha]
  rfl

/-- The end of a session: nothing left to read. -/
theorem handle_client_closed (s : Store) : handle_client [] s = ⟨0, [], s, []⟩ := by
  simp [handle_client, read_line, read_line_loop]

/-- More fuel does not change the result of a session. -/
theorem session_loop_mono :
    ∀ (n : Nat) (fd : List ReadEv) (s : Store) (out : List Byte) (r : List Byte × Store),
      session_loop n fd s out = some r → ∀ m, n ≤ m → session_loop m fd s out = some r
  | 0, _, _, _, _, h, _, _ => by simp [session_loop] at h
  | n + 1, fd, s, out, r, h, m, hm => by
    obtain ⟨k, rfl⟩ : ∃ k, m = k + 1 := ⟨m - 1, by omega⟩
    rw [session_loop] at h ⊢
    split
    · next h0 => simpa [h0] using h
    · next h0 =>
      simp only [h0, if_false] at h
      exact session_loop_mono n _ _ _ r h k (by omega)

/-- The loop of a session ends when the fuel exceeds the number of reads to come. -/
theorem session_loop_total :
    ∀ (n : Nat) (fd : List ReadEv) (s : Store) (out : List Byte), fd.length < n →
      (session_loop n fd s out).isSome
  | 0, _, _, _, h => absurd h (Nat.not_lt_zero _)
  | n + 1, fd, s, out, h => by
    rw [session_loop]
    split
    · rfl
    · next h0 =>
      apply session_loop_total n
      rw [handle_client_fd]
      have hpos : 0 < (read_line fd BUF_SIZE).n := by
        by_contra hn
        rw [handle_client_ret, if_pos (not_lt.1 hn)] at h0
        exact h0 rfl
      have := read_line_fd_lt fd BUF_SIZE hpos
      omega

/-- Every session on a finite stream ends. -/
theorem session_terminates (fd : List ReadEv) (s : Store) : (session fd s).isSome :=
  session_loop_total _ fd s [] (Nat.lt_succ_self _)

/-- The output of a session, from a run of its loop with less fuel. -/
theorem session_out_of_loop (n : Nat) (fd : List ReadEv) (s : Store) (out : List Byte)
    (h : (session_loop n fd s []).map Prod.fst = some out) (hn : n ≤ fd.length + 1) :
    (session fd s).map Prod.fst = some out := by
  obtain ⟨r, hr, hout⟩ := Option.map_eq_some'.1 h
  unfold session
  rw [session_loop_mono n fd s [] r hr _ hn]
  simp [hout]

/-! ## The hash and djb2 -/

theorem djb2_congr :
    ∀ (str : List Byte) (a b : Nat), a % 1024 = b % 1024 →
      djb2 a str % 1024 = djb2 b str % 1024
  | [], _, _, h => h
  | c :: str, a, b, h => by
    apply djb2_congr str
    omega

/-- On bytes below 128 the loop of `hash` and djb2 agree modulo the number of buckets, the
wrap of the 64-bit accumulator included. -/
theorem hash_loop_eq_djb2 :
    ∀ (str : List Byte) (h : Nat), (∀ b ∈ str, b < 128) →
      hash_loop h str % 1024 = djb2 h str % 1024
  | [], _, _ => rfl
  | c :: str, h, hb => by
    have hc : c < 128 := hb c (List.mem_cons_self _ _)
    rw [hash_loop, djb2, hash_loop_eq_djb2 str _ (fun b h1 => hb b (List.mem_cons_of_mem _ h1))]
    apply djb2_congr
    simp only [char_to_ulong, hc, if_true]
    have e : (2 : Nat) ^ 64 = 18446744073709551616 := by norm_num
    rw [e]
    omega

/-- On NUL-free strings of bytes below 128, `hash` is djb2 from 5381 modulo the number of
buckets. -/
theorem hash_eq_djb2_of_ascii (str : List Byte) (h0 : 0 ∉ str) (hb : ∀ b ∈ str, b < 128) :
    hash str = djb2 5381 str % HASH_SIZE := by
  unfold hash
  rw [cstr_of_nul_free h0]
  exact hash_loop_eq_djb2 str 5381 hb

/-- The lookup of another key is not changed by a successful walk of `set_kv`. -/
theorem get_walk_after_set_walk {k v k1 : List Byte} (hne : cstr k ≠ cstr k1) :
    ∀ {c c1 : List kv_entry_t}, set_kv_walk k v c = some c1 →
      get_kv_walk k1 c1 = get_kv_walk k1 c
  | [], _, h => by simp [set_kv_walk] at h
  | curr :: next, c1, h => by
    unfold set_kv_walk at h
    split at h
    · next hk =>
      cases h
      have : ¬ curr.key = cstr k1 := fun e => hne (hk.symm.trans e)
      simp [get_kv_walk, this]
    · cases hw : set_kv_walk k v next with
      | none => simp [hw] at h
      | some c2 =>
        simp [hw] at h
        subst h
        simp [get_kv_walk, get_walk_after_set_walk hne hw]

/-- The lookup of another key is not changed by `set_kv` with a key that fits. -/
theorem get_kv_set_kv_other (s : Store) (k v k1 : List Byte) (hne : cstr k ≠ cstr k1)
    (hk : (cstr k).length ≤ 255) : get_kv (set_kv s k v) k1 = get_kv s k1 := by
  unfold get_kv
  by_cases hh : hash k1 = hash k
  · rw [hh]
    unfold set_kv
    cases hw : set_kv_walk k v (s (hash k)) with
    | none =>
      have hz : strncpy_z k 255 = cstr k := List.take_of_length_le hk
      simp [put_same, get_kv_walk, hz, hne]
    | some c => simp [put_same, get_walk_after_set_walk hne hw]
  · rw [set_kv_other _ _ _ hh]

theorem get_kv_run_requests (k1 : List Byte) (h0 : 0 ∉ k1) :
    ∀ (fds : List (List ReadEv)) (s : Store),
      (∀ fd ∈ fds, ∀ v, set_request fd ≠ some (k1, v)) →
      get_kv (run_requests s fds) k1 = get_kv s k1
  | [], _, _ => rfl
  | fd :: fds, s, h => by
    have ih := get_kv_run_requests k1 h0 fds (handle_client fd s).store
      (fun fd1 h1 => h fd1 (List.mem_cons_of_mem _ h1))
    unfold run_requests at ih ⊢
    rw [List.foldl_cons, ih, handle_client_store]
    cases hr : set_request fd with
    | none => rfl
    | some kv =>
      obtain ⟨k, v⟩ := kv
      have hk := set_request_key hr
      have hne : k ≠ k1 := fun e => h fd (List.mem_cons_self _ _) v (by rw [hr, e])
      exact get_kv_set_kv_other s k v k1
        (by rw [cstr_of_nul_free hk.2, cstr_of_nul_free h0]; exact hne)
        (by rw [cstr_of_nul_free hk.2]; exact hk.1)

/-! ## What the table holds -/

theorem scan_value_subset (r : List Byte) : scan_value r ⊆ r :=
  fun _ hx => (List.dropWhile_sublist _).subset (List.mem_of_mem_drop
    ((List.dropWhile_sublist _).subset
      ((List.takeWhile_sublist _).subset (List.mem_of_mem_take hx))))

/-- The strings that reach `set_kv` from `handle_client`. -/
theorem set_request_ok {fd : List ReadEv} {k v : List Byte} (h : set_request fd = some (k, v)) :
    key_ok k ∧ value_ok v := by
  unfold set_request at h
  simp only at h
  split at h
  · cases h
  · split at h
    · next h2 =>
      obtain ⟨r, hr, hk, _, hv, he⟩ := sscanf_SET_two h2
      rw [he] at h
      simp only [List.getD_cons_zero, Option.some.injEq, Prod.mk.injEq] at h
      have hv2 : scan_value r = v := by simpa using h.2
      rw [← h.1, ← hv2]
      have hnul : ∀ x, x ∈ r → x ≠ 0 := by
        intro x hx e
        have : (0 : Byte) ∈ cstr (read_line fd BUF_SIZE).buf := by
          rw [hr, ← e]
          exact List.mem_cons_of_mem _ (List.mem_cons_of_mem _ (List.mem_cons_of_mem _ hx))
        exact nul_not_mem_cstr _ this
      exact ⟨⟨hk, scan_key_length r, scan_key_no_space r,
          fun h0 => hnul 0 (scan_key_subset r h0) rfl⟩,
        ⟨hv, scan_value_length r, scan_value_no_newline r,
          fun h0 => hnul 0 (scan_value_subset r h0) rfl⟩⟩
    · cases h

/-- The nodes of a chain after a successful walk of `set_kv`. -/
theorem mem_set_kv_walk {k v : List Byte} {e : kv_entry_t} :
    ∀ {c c1 : List kv_entry_t}, set_kv_walk k v c = some c1 → e ∈ c1 →
      e ∈ c ∨ ∃ e0 ∈ c, e.key = e0.key ∧ e.value = strncpy_z v 767
  | [], _, h, _ => by simp [set_kv_walk] at h
  | curr :: next, c1, h, he => by
    unfold set_kv_walk at h
    split at h
    · cases h
      rcases List.mem_cons.1 he with rfl | h1
      · exact Or.inr ⟨curr, List.mem_cons_self _ _, rfl, rfl⟩
      · exact Or.inl (List.mem_cons_of_mem _ h1)
    · cases hw : set_kv_walk k v next with
      | none => simp [hw] at h
      | some c2 =>
        simp [hw] at h
        subst h
        rcases List.mem_cons.1 he with rfl | h1
        · exact Or.inl (List.mem_cons_self _ _)
        · rcases mem_set_kv_walk hw h1 with h2 | ⟨e0, h2, h3⟩
          · exact Or.inl (List.mem_cons_of_mem _ h2)
          · exact Or.inr ⟨e0, List.mem_cons_of_mem _ h2, h3⟩

theorem content_inv_empty : content_inv empty_store := by
  intro i e he
  simp [empty_store] at he

theorem content_inv_set_kv {s : Store} {k v : List Byte} (h : content_inv s) (hk : key_ok k)
    (hv : value_ok v) : content_inv (set_kv s k v) := by
  have hkz : strncpy_z k 255 = k := strncpy_z_of_fits hk.2.2.2 hk.2.1
  have hvz : strncpy_z v 767 = v := strncpy_z_of_fits hv.2.2.2 hv.2.1
  intro i e he
  by_cases hi : i = hash k
  · subst hi
    unfold set_kv at he
    cases hw : set_kv_walk k v (s (hash k)) with
    | none =>
      simp only [hw, put_same] at he
      rcases List.mem_cons.1 he with rfl | h1
      · show key_ok (strncpy_z k 255) ∧ value_ok (strncpy_z v 767) ∧
          hash (strncpy_z k 255) = hash k
        rw [hkz, hvz]
        exact ⟨hk, hv, rfl⟩
      · exact h _ e h1
    | some c =>
      simp only [hw, put_same] at he
      rcases mem_set_kv_walk hw he with h1 | ⟨e0, h1, h2, h3⟩
      · exact h _ e h1
      · have := h _ e0 h1
        rw [h2, h3, hvz]
        exact ⟨this.1, hv, this.2.2⟩
  · rw [set_kv_other _ _ _ hi] at he
    exact h i e he

theorem content_inv_of_reachable {s : Store} (h : Reachable s) : content_inv s := by
  induction h with
  | init => exact content_inv_empty
  | step s fd _ ih =>
    rw [handle_client_store]
    cases hr : set_request fd with
    | none => exact ih
    | some kv =>
      obtain ⟨k, v⟩ := kv
      have := set_request_ok hr
      exact content_inv_set_kv ih this.1 this.2

/-- The answer of the GET branch of `handle_client` to a value that fits. -/
theorem handle_client_out_get {fd : List ReadEv} {s : Store} {k v : List Byte}
    (h : get_request fd = some k) (hv : get_kv s k = some v) (hv0 : 0 ∉ v)
    (hvl : v.length ≤ 767) : (handle_client fd s).out = v ++ bytes "\n" := by
  unfold get_request at h
  simp only at h
  split at h
  · cases h
  · next hn =>
    split at h
    · cases h
    · next h1 =>
      split at h
      · next h2 =>
        obtain ⟨r, _, _, he⟩ := sscanf_GET_one h2
        rw [he] at h
        simp only [List.getD_cons_zero, Option.some.injEq] at h
        rw [h] at he
        rw [handle_client_GET fd s k (not_le.1 hn) h1 he, hv]
        obtain ⟨ha, hpos⟩ := answer_value hv0 hvl
        simp only [hpos, if_true, ha]
        rfl
      · cases h

/-! ## The client -/

theorem first_line_append {line : List Byte} (rest : List Byte) (hnl : 10 ∉ line) :
    first_line (line ++ 10 :: rest) = line ++ [10] := by
  induction line with
  | nil => simp [first_line]
  | cons b line ih =>
    have hb : b ≠ 10 := fun e => hnl (e ▸ List.mem_cons_self _ _)
    have := ih (fun h => hnl (List.mem_cons_of_mem _ h))
    simp [first_line, hb, this]

/-- What `fgets` returns on a line that fits the buffer with its newline. -/
theorem fgets_line {line : List Byte} (rest : List Byte) (hnl : 10 ∉ line)
    (hlen : line.length ≤ 1022) :
    fgets BUF_SIZE (line ++ [10] ++ rest) = some (line ++ [10], rest) := by
  have e : line ++ [10] ++ rest = line ++ 10 :: rest := by simp
  have hl : (line ++ [10]).length ≤ BUF_SIZE - 1 := by
    simp [BUF_SIZE]
    omega
  unfold fgets
  simp only
  rw [e, first_line_append rest hnl, List.take_of_length_le hl]
  have e2 : line ++ 10 :: rest = (line ++ [10]) ++ rest := by simp
  rw [e2, List.drop_left]
  simp

/-- A line that is `QUIT` ignoring case does not begin with `SET ` or `GET `. -/
theorem not_command_of_quit {line : List Byte}
    (h : eq_ignoring_case line (bytes "QUIT") = true) : is_command line = false := by
  have hq : (bytes "QUIT").map tolower = [113, 117, 105, 116] := by decide
  have hs : (bytes "SET ").map tolower = [115, 101, 116, 32] := by decide
  have hg : (bytes "GET ").map tolower = [103, 101, 116, 32] := by decide
  have h4 : (bytes "SET ").length = 4 ∧ (bytes "GET ").length = 4 := by decide
  unfold eq_ignoring_case at h
  rw [hq] at h
  have hm : line.map tolower = [113, 117, 105, 116] := by simpa using h
  unfold is_command begins_ignoring_case
  rw [h4.1, h4.2, hs, hg, List.map_take, hm]
  decide

/-- One round of the client on a line that fits the buffer. -/
theorem client_step_line {line : List Byte} (rest : List Byte) (h0 : 0 ∉ line)
    (hnl : 10 ∉ line) (hlen : line.length ≤ 1022) :
    client_step (line ++ [10] ++ rest) =
      (if eq_ignoring_case line (bytes "QUIT") then ClientAct.quit
        else if is_command line then ClientAct.send (line ++ bytes "\n")
        else ClientAct.usage, rest) := by
  have hq : cstr (bytes "QUIT") = bytes "QUIT" := by decide
  have hs : (cstr (bytes "SET ")).take 4 = bytes "SET " ∧ (bytes "SET ").length = 4 := by
    decide
  have hg : (cstr (bytes "GET ")).take 4 = bytes "GET " ∧ (bytes "GET ").length = 4 := by
    decide
  have hc : cstr (line ++ [10]) = line ++ [10] := cstr_of_nul_free (by simp [h0])
  have hfit : line.length + 1 < BUF_SIZE := by
    simp [BUF_SIZE]
    omega
  have hbuf : (if (cstr (line ++ [10])).length ≠ 0 ∧ (cstr (line ++ [10])).getLast? = some 10
      then (cstr (line ++ [10])).dropLast else cstr (line ++ [10])) = line := by
    rw [hc]
    simp
  have e1 : strcasecmp_eq line (bytes "QUIT") = eq_ignoring_case line (bytes "QUIT") := by
    unfold strcasecmp_eq eq_ignoring_case
    rw [cstr_of_nul_free h0, hq]
  have e2 : (strncasecmp_eq line (bytes "SET ") 4 || strncasecmp_eq line (bytes "GET ") 4)
      = is_command line := by
    unfold strncasecmp_eq is_command begins_ignoring_case
    rw [cstr_of_nul_free h0, hs.1, hs.2, hg.1, hg.2]
  unfold client_step
  rw [fgets_line rest hnl hlen]
  dsimp only
  rw [hbuf, e1, e2, if_pos hfit]
  cases eq_ignoring_case line (bytes "QUIT") <;> cases is_command line <;> rfl

/-- More fuel does not change the result of a run of the client. -/
theorem client_loop_mono :
    ∀ (n : Nat) (stdin : List Byte) (sock : List ReadEv) (run r : ClientRun),
      client_loop n stdin sock run = some r → ∀ m, n ≤ m → client_loop m stdin sock run = some r
  | 0, _, _, _, _, h, _, _ => by simp [client_loop] at h
  | n + 1, stdin, sock, run, r, h, m, hm => by
    obtain ⟨k, rfl⟩ : ∃ k, m = k + 1 := ⟨m - 1, by omega⟩
    rw [client_loop] at h ⊢
    split
    · next he => simpa [he] using h
    · next he => simpa [he] using h
    · next he => simpa [he] using h
    · next he =>
      simp only [he] at h
      exact client_loop_mono n _ _ _ r h k (by omega)
    · next he =>
      simp only [he] at h ⊢
      split
      · next hn => simpa [hn] using h
      · next hn =>
        simp only [hn, if_false] at h
        exact client_loop_mono n _ _ _ r h k (by omega)

/-- The bytes that a run of the client sends, from a run of its loop with less fuel. -/
theorem client_sent_of_loop (n : Nat) (stdin : List Byte) (sock : List ReadEv)
    (sent : List Byte)
    (h : (client_loop n stdin sock ⟨[], [], false⟩).map ClientRun.sent = some sent)
    (hn : n ≤ stdin.length + 1) :
    (client_main stdin sock).map ClientRun.sent = some sent := by
  obtain ⟨r, hr, hout⟩ := Option.map_eq_some'.1 h
  unfold client_main
  rw [client_loop_mono n stdin sock _ r hr _ hn]
  simp [hout]

theorem client_step_eof : client_step [] = (ClientAct.eof, []) := by decide

/-- The bytes that the client sends when its whole input is one line that fits the
buffer. -/
theorem client_main_line {line : List Byte} (sock : List ReadEv) (h0 : 0 ∉ line)
    (hnl : 10 ∉ line) (hlen : line.length ≤ 1022) :
    (client_main (line ++ [10]) sock).map ClientRun.sent =
      some (if eq_ignoring_case line (bytes "QUIT") then []
        else if is_command line then line ++ bytes "\n" else []) := by
  have hstep := client_step_line [] h0 hnl hlen
  rw [List.append_nil] at hstep
  apply client_sent_of_loop 2
  · rw [client_loop, hstep]
    cases eq_ignoring_case line (bytes "QUIT")
    · cases is_command line
      · simp [client_loop, client_step_eof]
      · simp only [Bool.false_eq_true, if_false, if_true]
        split
        · simp
        · simp [client_loop, client_step_eof]
    · simp
  · simp

/-- One round of the loop of the client on a line that fits the buffer: the loop ends on
`QUIT`; a command is written to the socket with its newline and the answer read and
printed, or the loop ends when the server has closed; any other line gets the usage
message and nothing is written. -/
theorem client_loop_line (n : Nat) {line : List Byte} (rest : List Byte) (sock : List ReadEv)
    (run : ClientRun) (h0 : 0 ∉ line) (hnl : 10 ∉ line) (hlen : line.length ≤ 1022) :
    client_loop (n + 1) (line ++ [10] ++ rest) sock run =
      if eq_ignoring_case line (bytes "QUIT") then
        some ⟨run.sent, run.printed ++ bytes "> ", run.overflow⟩
      else if is_command line then
        if (read_line sock (BUF_SIZE - 1)).n ≤ 0 then
          some ⟨run.sent ++ (line ++ bytes "\n"),
            run.printed ++ bytes "> " ++ bytes "Server closed connection\n", run.overflow⟩
        else
          client_loop n rest (read_line sock (BUF_SIZE - 1)).fd
            ⟨run.sent ++ (line ++ bytes "\n"),
              run.printed ++ bytes "> " ++ cstr (read_line sock (BUF_SIZE - 1)).buf,
              run.overflow⟩
      else
        client_loop n rest sock ⟨run.sent, run.printed ++ bytes "> " ++ MSG_USAGE, run.overflow⟩ := by
  rw [client_loop, client_step_line rest h0 hnl hlen]
  cases eq_ignoring_case line (bytes "QUIT")
  · cases is_command line
    · rfl
    · rfl
  · rfl

/-- The end of the operator input: the prompt is printed and the loop ends. -/
theorem client_loop_eof (n : Nat) (sock : List ReadEv) (run : ClientRun) :
    client_loop (n + 1) [] sock run = some ⟨run.sent, run.printed ++ bytes "> ", run.overflow⟩ := by
  rw [client_loop, client_step_eof]

/-- A run of the client, from a run of its loop with less fuel. -/
theorem client_main_of_loop (n : Nat) (stdin : List Byte) (sock : List ReadEv) (r : ClientRun)
    (h : client_loop n stdin sock ⟨[], [], false⟩ = some r) (hn : n ≤ stdin.length + 1) :
    client_main stdin sock = some r :=
  client_loop_mono n stdin sock _ r h _ hn

/-- A run of the client whose input begins with a line that is `QUIT` ignoring case: the
prompt is printed, nothing is sent, and the input behind the line is not looked at. -/
theorem client_main_quit {line : List Byte} (rest : List Byte) (sock : List ReadEv)
    (h0 : 0 ∉ line) (hnl : 10 ∉ line) (hlen : line.length ≤ 1022)
    (hq : eq_ignoring_case line (bytes "QUIT") = true) :
    client_main (line ++ [10] ++ rest) sock = some ⟨[], bytes "> ", false⟩ := by
  apply client_main_of_loop 1 _ _ _ _ (by omega)
  rw [client_loop_line 0 rest sock _ h0 hnl hlen, if_pos hq]
  rfl

/-- A run of the client on one line that is neither `QUIT` nor a command: the usage
message is printed between two prompts and nothing is sent. -/
theorem client_main_usage {line : List Byte} (sock : List ReadEv)
    (h0 : 0 ∉ line) (hnl : 10 ∉ line) (hlen : line.length ≤ 1022)
    (hq : eq_ignoring_case line (bytes "QUIT") = false) (hc : is_command line = false) :
    client_main (line ++ [10]) sock
      = some ⟨[], bytes "> " ++ MSG_USAGE ++ bytes "> ", false⟩ := by
  apply client_main_of_loop 2 _ _ _ _ (by simp)
  have h := client_loop_line 1 [] sock ⟨[], [], false⟩ h0 hnl hlen
  rw [List.append_nil] at h
  rw [h, hq, hc, client_loop_eof]
  rfl

/-- A run of the client on one command line: the line and a newline are sent, and the
answer of the server is printed, or the notice that the server has closed. -/
theorem client_main_command {line : List Byte} (sock : List ReadEv)
    (h0 : 0 ∉ line) (hnl : 10 ∉ line) (hlen : line.length ≤ 1022)
    (hc : is_command line = true) :
    client_main (line ++ [10]) sock =
      some ⟨line ++ bytes "\n",
        bytes "> " ++
          (if (read_line sock (BUF_SIZE - 1)).n ≤ 0 then bytes "Server closed connection\n"
            else cstr (read_line sock (BUF_SIZE - 1)).buf ++ bytes "> "),
        false⟩ := by
  have hq : eq_ignoring_case line (bytes "QUIT") = false := by
    cases hq : eq_ignoring_case line (bytes "QUIT")
    · rfl
    · rw [not_command_of_quit hq] at hc
      cases hc
  apply client_main_of_loop 2 _ _ _ _ (by simp)
  have h := client_loop_line 1 [] sock ⟨[], [], false⟩ h0 hnl hlen
  rw [List.append_nil] at h
  rw [h, hq, hc]
  simp only [Bool.false_eq_true, if_false, if_true]
  split
  · simp
  · rw [client_loop_eof]
    simp

/-! ## The invariant of the table -/

/-- Counting a key over the buckets when only bucket `j` can hold it. -/
theorem count_flatMap_range {f : Nat → List (List Byte)} {k : List Byte} {j : Nat} :
    ∀ (n : Nat), j < n → (∀ i, i < n → i ≠ j → k ∉ f i) →
      ((List.range n).flatMap f).count k = (f j).count k
  | 0, hj, _ => absurd hj (Nat.not_lt_zero _)
  | n + 1, hj, h => by
    rw [List.range_succ, List.flatMap_append, List.count_append, List.flatMap_singleton]
    rcases Nat.lt_succ_iff_lt_or_eq.1 hj with hlt | heq
    · rw [count_flatMap_range n hlt (fun i hi hij => h i (Nat.lt_succ_of_lt hi) hij),
        List.count_eq_zero_of_not_mem (h n (Nat.lt_succ_self n) (Nat.ne_of_gt hlt))]
      rfl
    · subst heq
      have h0 : ((List.range j).flatMap f).count k = 0 := by
        apply List.count_eq_zero_of_not_mem
        intro hm
        obtain ⟨i, hi, hki⟩ := List.mem_flatMap.1 hm
        have hij : i < j := List.mem_range.1 hi
        exact h i (Nat.lt_succ_of_lt hij) (Nat.ne_of_lt hij) hki
      rw [h0, Nat.zero_add]

theorem keys_eq_flatMap (s : Store) :
    keys s = (List.range HASH_SIZE).flatMap (fun i => (s i).map kv_entry_t.key) := by
  unfold keys all_entries
  rw [List.map_flatMap]


theorem hash_cstr (key : List Byte) : hash (cstr key) = hash key := by
  unfold hash
  rw [cstr_cstr]

theorem store_inv_empty : store_inv empty_store := by
  intro i
  simp [empty_store]

theorem store_inv_set_kv {s : Store} (key value : List Byte) (h : store_inv s)
    (hk : (cstr key).length ≤ 255) : store_inv (set_kv s key value) := by
  intro i
  by_cases hi : i = hash key
  · subst hi
    rw [set_kv_bucket_keys]
    split
    · exact h _
    · next hm =>
      have hz : strncpy_z key 255 = cstr key := List.take_of_length_le hk
      rw [hz]
      refine ⟨?_, List.nodup_cons.2 ⟨hm, (h _).2⟩⟩
      intro k hk1
      rcases List.mem_cons.1 hk1 with rfl | hk2
      · exact ⟨hash_cstr key, nul_not_mem_cstr key⟩
      · exact (h _).1 k hk2
  · rw [set_kv_other _ _ _ hi]
    exact h i

theorem store_inv_handle_client {s : Store} (fd : List ReadEv) (h : store_inv s) :
    store_inv (handle_client fd s).store := by
  rw [handle_client_store]
  cases hr : set_request fd with
  | none => exact h
  | some kv =>
    obtain ⟨k, v⟩ := kv
    have hk := set_request_key hr
    exact store_inv_set_kv k v h (by rw [cstr_of_nul_free hk.2]; exact hk.1)

theorem store_inv_of_reachable {s : Store} (h : Reachable s) : store_inv s := by
  induction h with
  | init => exact store_inv_empty
  | step s fd _ ih => exact store_inv_handle_client fd ih

theorem keys_nodup_of_inv {s : Store} (h : store_inv s) : (keys s).Nodup := by
  rw [keys_eq_flatMap, List.nodup_flatMap]
  refine ⟨fun i _ => (h i).2, ?_⟩
  refine (List.nodup_range HASH_SIZE).pairwise_of_forall_ne ?_
  intro i _ j _ hij
  show List.Disjoint ((s i).map kv_entry_t.key) ((s j).map kv_entry_t.key)
  intro k hki hkj
  exact hij (((h i).1 k hki).1.symm.trans ((h j).1 k hkj).1)

/-- In a table that satisfies the invariant, `set_kv` on a key that some node holds keeps
the list of keys. -/
theorem keys_set_kv_existing {s : Store} (h : store_inv s) {k : List Byte} (v : List Byte)
    (hk0 : 0 ∉ k) (hm : k ∈ keys s) : keys (set_kv s k v) = keys s := by
  rw [keys_eq_flatMap] at hm
  obtain ⟨i, _, hki⟩ := List.mem_flatMap.1 hm
  have hi : hash k = i := ((h i).1 k hki).1
  subst hi
  rw [keys_eq_flatMap, keys_eq_flatMap]
  congr 1
  funext i
  by_cases hi : i = hash k
  · subst hi
    rw [set_kv_bucket_keys, cstr_of_nul_free hk0, if_pos hki]
  · rw [set_kv_other _ _ _ hi]

/-- A key that no node holds is still held by no node after `set_kv` with another key
that fits `char key[256]`. -/
theorem absent_set_kv {s : Store} {k : List Byte} (key value : List Byte)
    (h : ∀ i, k ∉ (s i).map kv_entry_t.key) (hne : key ≠ k) (hk0 : 0 ∉ key)
    (hk : key.length ≤ 255) : ∀ i, k ∉ (set_kv s key value i).map kv_entry_t.key := by
  intro i
  by_cases hi : i = hash key
  · subst hi
    rw [set_kv_bucket_keys, strncpy_z_of_fits hk0 hk]
    split
    · exact h _
    · intro hm
      rcases List.mem_cons.1 hm with heq | hm2
      · exact hne heq.symm
      · exact h _ hm2
  · rw [set_kv_other _ _ _ hi]
    exact h i

theorem absent_run_sets {k : List Byte} :
    ∀ (ops : List (List Byte × List Byte)) (s : Store),
      (∀ i, k ∉ (s i).map kv_entry_t.key) →
      (∀ kv ∈ ops, kv.1 ≠ k ∧ 0 ∉ kv.1 ∧ kv.1.length ≤ 255) →
      ∀ i, k ∉ (run_sets s ops i).map kv_entry_t.key
  | [], _, h, _ => h
  | kv :: ops, s, h, hops => by
    have hkv := hops kv (List.mem_cons_self _ _)
    exact absent_run_sets ops (set_kv s kv.1 kv.2)
      (absent_set_kv kv.1 kv.2 h hkv.1 hkv.2.1 hkv.2.2)
      (fun kv1 h1 => hops kv1 (List.mem_cons_of_mem _ h1))

/-! ## Claims -/

/-- C1. Round trip: in every state of the table, for a NUL-free key of at most 255 bytes
and a NUL-free value of at most 767 bytes, `get_kv(key)` right after
`set_kv(key, value)` returns exactly `value`. -/
theorem C1_set_then_get (s : Store) (key value : List Byte)
    (hk : key.length ≤ 255) (hv : value.length ≤ 767) (hk0 : 0 ∉ key) (hv0 : 0 ∉ value) :
    get_kv (set_kv s key value) key = some value :=
  get_kv_set_kv_fits s key value hk hv hk0 hv0

/-- C1 at the key `alpha`, overwriting `old` by `hello world`. -/
theorem C1_set_then_get_witness :
    get_kv (set_kv (set_kv empty_store (bytes "alpha") (bytes "old")) (bytes "alpha")
      (bytes "hello world")) (bytes "alpha") = some (bytes "hello world") :=
  C1_set_then_get _ (bytes "alpha") (bytes "hello world") (by decide) (by decide) (by decide)
    (by decide)

set_option maxRecDepth 100000 in
/-- C2, as stated, fails: the table can hold the key outside its bucket. From the empty
table, `set_kv` with a key of 256 bytes `a` stores the 255 first bytes as key in the bucket
of the long key (517); two `set_kv` on the key of 255 bytes `a` (bucket 292) then leave two
nodes with that key. -/
theorem C2_counterexample :
    ¬ (∀ (s : Store) (k v1 v2 : List Byte), k.length ≤ 255 → v1.length ≤ 767 →
        v2.length ≤ 767 → 0 ∉ k → 0 ∉ v1 → 0 ∉ v2 →
        get_kv (set_kv (set_kv s k v1) k v2) k = some v2 ∧
          key_count (set_kv (set_kv s k v1) k v2) k = 1) := by
  intro h
  have h2 := (h (set_kv empty_store (List.replicate 256 97) (bytes "x")) (List.replicate 255 97)
    (bytes "1") (bytes "2") (by decide) (by decide) (by decide) (by decide) (by decide)
    (by decide)).2
  revert h2
  decide

/-- C2, amended. Overwrite: in every state of the table that holds at most one node with
key `k` and none outside the bucket `hash(k)`, for `k`, `v1`, `v2` within the length
bounds, after `set_kv(k, v1)` then `set_kv(k, v2)`, `get_kv(k)` returns `v2` and the table,
all buckets together, holds exactly one node whose key is `k`. -/
theorem C2_overwrite (s : Store) (k v1 v2 : List Byte)
    (hk : k.length ≤ 255) (_hv1 : v1.length ≤ 767) (hv2 : v2.length ≤ 767)
    (hk0 : 0 ∉ k) (_hv10 : 0 ∉ v1) (hv20 : 0 ∉ v2)
    (hone : key_count s k ≤ 1)
    (hplace : ∀ i, i < HASH_SIZE → k ∈ (s i).map kv_entry_t.key → i = hash k) :
    get_kv (set_kv (set_kv s k v1) k v2) k = some v2 ∧
      key_count (set_kv (set_kv s k v1) k v2) k = 1 := by
  refine ⟨get_kv_set_kv_fits _ k v2 hk hv2 hk0 hv20, ?_⟩
  have hc : cstr k = k := cstr_of_nul_free hk0
  have hz : strncpy_z k 255 = k := strncpy_z_of_fits hk0 hk
  have hout : ∀ i, i < HASH_SIZE → i ≠ hash k → k ∉ (s i).map kv_entry_t.key :=
    fun i hi hne hm => hne (hplace i hi hm)
  have hcount0 : ((s (hash k)).map kv_entry_t.key).count k ≤ 1 := by
    have := count_flatMap_range HASH_SIZE (hash_lt k) hout
    rw [← keys_eq_flatMap] at this
    unfold key_count at hone
    omega
  have hb1 : ((set_kv s k v1 (hash k)).map kv_entry_t.key).count k = 1 := by
    rw [set_kv_bucket_keys, hc, hz]
    split
    · next hm =>
      have := List.count_pos_iff.2 hm
      omega
    · next hm => simp [List.count_eq_zero_of_not_mem hm]
  have hb2 : ((set_kv (set_kv s k v1) k v2 (hash k)).map kv_entry_t.key).count k = 1 := by
    rw [set_kv_bucket_keys, hc, hz]
    have hm : k ∈ (set_kv s k v1 (hash k)).map kv_entry_t.key := by
      apply List.count_pos_iff.1
      omega
    rw [if_pos hm, hb1]
  unfold key_count
  rw [keys_eq_flatMap, count_flatMap_range HASH_SIZE (hash_lt k) ?_, hb2]
  intro i hi hne
  rw [set_kv_other _ _ _ hne, set_kv_other _ _ _ hne]
  exact hout i hi hne

set_option maxRecDepth 100000 in
/-- C2, amended, at the key `alpha` in a table that holds `beta`. -/
theorem C2_overwrite_witness :
    get_kv (set_kv (set_kv (set_kv empty_store (bytes "beta") (bytes "0")) (bytes "alpha")
        (bytes "1")) (bytes "alpha") (bytes "2")) (bytes "alpha") = some (bytes "2") ∧
      key_count (set_kv (set_kv (set_kv empty_store (bytes "beta") (bytes "0")) (bytes "alpha")
        (bytes "1")) (bytes "alpha") (bytes "2")) (bytes "alpha") = 1 :=
  C2_overwrite (set_kv empty_store (bytes "beta") (bytes "0")) (bytes "alpha") (bytes "1")
    (bytes "2") (by decide) (by decide) (by decide) (by decide) (by decide) (by decide)
    (by decide) (by decide)

/-- C3. Key uniqueness: in every state of the table reachable from the empty table by
`handle_client` on any descriptors, no two nodes, in the same or in different buckets, have
the same key; and when `handle_client` takes its SET branch with a key that a node already
holds, the table has as many nodes afterwards as before. -/
theorem C3_key_uniqueness (s : Store) (h : Reachable s) :
    (keys s).Nodup ∧
      ∀ (fd : List ReadEv) (k v : List Byte), set_request fd = some (k, v) → k ∈ keys s →
        (handle_client fd s).store = set_kv s k v ∧
          (all_entries (handle_client fd s).store).length = (all_entries s).length := by
  have hinv := store_inv_of_reachable h
  refine ⟨keys_nodup_of_inv hinv, ?_⟩
  intro fd k v hr hm
  have hs : (handle_client fd s).store = set_kv s k v := by
    rw [handle_client_store, hr]
  refine ⟨hs, ?_⟩
  have hkeys := keys_set_kv_existing hinv v (set_request_key hr).2 hm
  have hl := congrArg List.length hkeys
  unfold keys at hl
  rw [List.length_map, List.length_map] at hl
  rw [hs, hl]

/-- C3 at the table reached by two SET requests on the same key. -/
theorem C3_key_uniqueness_witness :
    (keys (handle_client (wire (bytes "SET alpha 2\n"))
        (handle_client (wire (bytes "SET alpha 1\n")) empty_store).store).store).Nodup :=
  (C3_key_uniqueness _ (Reachable.step _ _ (Reachable.step _ _ Reachable.init))).1

set_option maxRecDepth 100000 in
/-- C4, as stated, fails: `set_kv` stores only the 255 first bytes of a longer key. With `k`
made of 254 bytes `a` and one `z`, the single call of `set_kv` with the 256 bytes of `k` and
one grave accent (byte 96) as key and `"v"` as value uses another key, lands in bucket 317,
which is also the bucket of `k`, and stores `k` as key there, so that `get_kv(k)` returns
`"v"`. -/
theorem C4_counterexample :
    ¬ (∀ (ops : List (List Byte × List Byte)) (k : List Byte), 0 ∉ k →
        (∀ kv ∈ ops, kv.1 ≠ k ∧ 0 ∉ kv.1) → get_kv (run_sets empty_store ops) k = none) := by
  intro h
  have h2 := h [(List.replicate 254 97 ++ [122, 96], bytes "v")] (List.replicate 254 97 ++ [122])
    (by decide) (by decide)
  revert h2
  decide

/-- C4, amended. Absence: from the empty table, after any sequence of `set_kv` calls whose
keys have at most 255 bytes and none of which uses key `k`, `get_kv(k)` returns `NULL`. -/
theorem C4_absence (ops : List (List Byte × List Byte)) (k : List Byte) (hk0 : 0 ∉ k)
    (hops : ∀ kv ∈ ops, kv.1 ≠ k ∧ 0 ∉ kv.1 ∧ kv.1.length ≤ 255) :
    get_kv (run_sets empty_store ops) k = none := by
  unfold get_kv
  rw [get_kv_walk_eq_none, cstr_of_nul_free hk0]
  exact absent_run_sets ops empty_store (fun i => by simp [empty_store]) hops _

set_option maxRecDepth 100000 in
/-- C4, amended, at three calls on `alpha` and `beta` and the key `gamma`. -/
theorem C4_absence_witness :
    get_kv (run_sets empty_store [(bytes "alpha", bytes "1"), (bytes "beta", bytes "2"),
      (bytes "alpha", bytes "3")]) (bytes "gamma") = none :=
  C4_absence _ (bytes "gamma") (by decide) (by decide)

set_option maxRecDepth 100000 in
/-- C5, as stated, fails: the white space directive in front of `%767[^\n]` skips every
white space byte behind the key, not one space. On `SET k  v` (two spaces) the value of the
claim is `" v"`, the table maps `k` to `"v"`. -/
theorem C5_counterexample :
    ¬ (∀ (s : Store) (rest : List ReadEv) (key value : List Byte),
        key ≠ [] → key.length ≤ 255 → (∀ b ∈ key, isspace b = false) → 0 ∉ key →
        value ≠ [] → value.length ≤ 767 → 10 ∉ value → 0 ∉ value →
        (set_line key value).length < BUF_SIZE →
        (handle_client (wire (set_line key value) ++ rest) s).out = bytes "OK\n" ∧
          get_kv (handle_client (wire (set_line key value) ++ rest) s).store key
            = some value) := by
  intro h
  have h2 := (h empty_store [] (bytes "k") (bytes " v") (by decide) (by decide) (by decide)
    (by decide) (by decide) (by decide) (by decide) (by decide) (by decide)).2
  revert h2
  decide

/-- C5, amended. SET request: for every request line `SET <key> <value>` and newline that
fits the line buffer, where the key is a non-empty string without white space of at most 255
bytes and the value is a non-empty string without newline of at most 767 bytes that does not
begin with a white space byte, `handle_client` writes exactly `OK` and a newline, returns 1,
and the table afterwards, `set_kv(key, value)` applied to the table before, maps the key to
exactly the value: the whole remainder of the line behind the space that follows the key,
spaces included, without the newline. -/
theorem C5_set_request (s : Store) (rest : List ReadEv) (key value : List Byte)
    (hk1 : key ≠ []) (hk2 : key.length ≤ 255) (hk3 : ∀ b ∈ key, isspace b = false)
    (hk0 : 0 ∉ key) (hv1 : value ≠ []) (hv2 : value.length ≤ 767) (hv3 : 10 ∉ value)
    (hv0 : 0 ∉ value) (hv4 : ∀ b, value.head? = some b → isspace b = false)
    (hfit : (set_line key value).length < BUF_SIZE) :
    handle_client (wire (set_line key value) ++ rest) s
        = ⟨1, bytes "OK\n", set_kv s key value, rest⟩ ∧
      get_kv (set_kv s key value) key = some value := by
  refine ⟨?_, get_kv_set_kv_fits s key value hk2 hv2 hk0 hv0⟩
  rw [set_line_eq] at hfit ⊢
  have hnl : 10 ∉ 83 :: 69 :: 84 :: 32 :: (key ++ 32 :: value) := by
    have := isspace_of_mem_nl_free hk3
    simp [this, hv3]
  have hrl := read_line_wire _ rest hnl hfit
  have hnul : 0 ∉ (83 :: 69 :: 84 :: 32 :: (key ++ 32 :: value)) ++ [10] := by
    simp [hk0, hv0]
  have hscan : sscanf ((83 :: 69 :: 84 :: 32 :: (key ++ 32 :: value)) ++ [10]) FMT_SET
      = (2, [key, value]) := by
    unfold sscanf
    rw [cstr_of_nul_free hnul]
    have e : (83 :: 69 :: 84 :: 32 :: (key ++ 32 :: value)) ++ [10]
        = 83 :: 69 :: 84 :: (32 :: (key ++ 32 :: (value ++ [10]))) := by simp
    rw [e, sscanf_go_SET_eq]
    obtain ⟨e1, e2, e3⟩ := scan_SET_line hk1 hk2 hk3 hv1 hv2 hv3 hv4
    rw [e1, e2, e3]
    simp [hk1, hv1]
  have := handle_client_SET (wire _ ++ rest) s key value
    (by rw [hrl]; simp; omega) (by rw [hrl]; exact hscan)
  rw [this, hrl]

set_option maxRecDepth 100000 in
/-- C5, amended, at the line `SET alpha hello world`, which stores `hello world`. -/
theorem C5_set_request_witness :
    handle_client (wire (set_line (bytes "alpha") (bytes "hello world")) ++ []) empty_store
        = ⟨1, bytes "OK\n", set_kv empty_store (bytes "alpha") (bytes "hello world"), []⟩ ∧
      get_kv (set_kv empty_store (bytes "alpha") (bytes "hello world")) (bytes "alpha")
        = some (bytes "hello world") :=
  C5_set_request empty_store [] (bytes "alpha") (bytes "hello world") (by decide) (by decide)
    (by decide) (by decide) (by decide) (by decide) (by decide) (by decide) (by decide)
    (by decide)

/-- C6. GET request: in every state of the table (every node holding strings terminated
inside its arrays), for every request line `GET <key>` and newline with a non-empty key
without white space of at most 255 bytes, `handle_client` writes exactly the value that
`get_kv` finds followed by one newline when the key is present, and exactly `NOT_FOUND` and
a newline when `get_kv` finds nothing; it returns 1 and leaves the table as it was. -/
theorem C6_get_request (s : Store) (rest : List ReadEv) (key : List Byte)
    (hk1 : key ≠ []) (hk2 : key.length ≤ 255) (hk3 : ∀ b ∈ key, isspace b = false)
    (hk0 : 0 ∉ key) (hs : store_fits s) :
    (∀ v, get_kv s key = some v →
        handle_client (wire (get_line key) ++ rest) s = ⟨1, v ++ bytes "\n", s, rest⟩) ∧
      (get_kv s key = none →
        handle_client (wire (get_line key) ++ rest) s = ⟨1, bytes "NOT_FOUND\n", s, rest⟩) := by
  obtain ⟨hrl, h1, h2⟩ := scan_get_line rest hk1 hk2 hk3 hk0
  have hn : 0 < (read_line (wire (get_line key) ++ rest) BUF_SIZE).n := by
    rw [hrl, get_line_eq]
    simp
    omega
  have hc := handle_client_GET _ s key hn (by rw [hrl]; exact h1) (by rw [hrl]; exact h2)
  rw [hrl] at hc
  constructor
  · intro v hv
    obtain ⟨e, he, hev⟩ := get_kv_walk_mem hv
    have hfit : entry_fits e := hs _ (hash_lt key) e he
    unfold entry_fits at hfit
    rw [hev] at hfit
    obtain ⟨ha, hpos⟩ := answer_value hfit.2.2.2 hfit.2.2.1
    rw [hc, hv]
    simp only [hpos, if_true, ha]
    rfl
  · intro hv
    rw [hc, hv]

set_option maxRecDepth 100000 in
/-- C6 at the line `GET alpha` in a table that maps `alpha` to `hello world`. -/
theorem C6_get_request_witness :
    handle_client (wire (get_line (bytes "alpha")) ++ [])
        (set_kv empty_store (bytes "alpha") (bytes "hello world"))
      = ⟨1, bytes "hello world" ++ bytes "\n",
          set_kv empty_store (bytes "alpha") (bytes "hello world"), []⟩ :=
  (C6_get_request (set_kv empty_store (bytes "alpha") (bytes "hello world")) []
    (bytes "alpha") (by decide) (by decide) (by decide) (by decide) (by decide)).1
    (bytes "hello world") (by decide)

set_option maxRecDepth 100000 in
/-- C7. Error response bytes: on the malformed line `BOGUS foo`, `handle_client` hands
`write_all` the length 40 for a message of 42 bytes, so the bytes written stop after
`GET <key`: the closing `>` and the newline of the message are not written. -/
theorem C7_error_bytes_cut :
    (handle_client (wire (bytes "BOGUS foo\n")) empty_store).out
        = bytes "ERROR: Use SET <key> <value> or GET <key" ∧
      (handle_client (wire (bytes "BOGUS foo\n")) empty_store).out
        ≠ bytes "ERROR: Use SET <key> <value> or GET <key>\n" ∧
      MSG_ERROR.length = 42 := by
  decide

set_option maxRecDepth 100000 in
/-- C8, as stated, fails: `GETfoo` (no space behind the keyword) and `GET foo bar` (content
behind the key) are of neither form of the specification, and on both `handle_client`
takes the GET branch and answers `NOT_FOUND`, not the error message. Likewise `SETfoo bar`
(no space behind the keyword), `SET k`, tab, `v` (a tab for the second space) and `SET`
with a key of 256 bytes `a` and nothing behind it are of neither form, and on all three
`handle_client` takes the SET branch: it answers `OK` and stores a value. -/
theorem C8_counterexample :
    (¬ spec_set_line (bytes "GETfoo\n") ∧ ¬ spec_get_line (bytes "GETfoo\n") ∧
        (handle_client (wire (bytes "GETfoo\n")) empty_store).out = bytes "NOT_FOUND\n") ∧
      (¬ spec_set_line (bytes "GET foo bar\n") ∧ ¬ spec_get_line (bytes "GET foo bar\n") ∧
        (handle_client (wire (bytes "GET foo bar\n")) empty_store).out
          = bytes "NOT_FOUND\n") ∧
      (¬ spec_set_line (bytes "SETfoo bar\n") ∧ ¬ spec_get_line (bytes "SETfoo bar\n") ∧
        (handle_client (wire (bytes "SETfoo bar\n")) empty_store).out = bytes "OK\n" ∧
        get_kv (handle_client (wire (bytes "SETfoo bar\n")) empty_store).store (bytes "foo")
          = some (bytes "bar")) ∧
      (¬ spec_set_line (bytes "SET k\tv\n") ∧ ¬ spec_get_line (bytes "SET k\tv\n") ∧
        (handle_client (wire (bytes "SET k\tv\n")) empty_store).out = bytes "OK\n" ∧
        get_kv (handle_client (wire (bytes "SET k\tv\n")) empty_store).store (bytes "k")
          = some (bytes "v")) ∧
      (¬ spec_set_line (bytes "SET " ++ List.replicate 256 97 ++ bytes "\n") ∧
        ¬ spec_get_line (bytes "SET " ++ List.replicate 256 97 ++ bytes "\n") ∧
        (handle_client (wire (bytes "SET " ++ List.replicate 256 97 ++ bytes "\n"))
          empty_store).out = bytes "OK\n" ∧
        get_kv (handle_client (wire (bytes "SET " ++ List.replicate 256 97 ++ bytes "\n"))
          empty_store).store (List.replicate 255 97) = some (bytes "a")) := by
  have e5 : bytes "SET " ++ List.replicate 256 97 ++ bytes "\n"
      = 83 :: 69 :: 84 :: 32 :: (List.replicate 256 97 ++ [10]) := by decide
  have e1 : bytes "GETfoo\n" = [71, 69, 84, 102, 111, 111, 10] := by decide
  have e2 : bytes "GET foo bar\n" = [71, 69, 84, 32, 102, 111, 111, 32, 98, 97, 114] ++ [10] := by
    decide
  have e3 : bytes "SETfoo bar\n" = [83, 69, 84, 102, 111, 111, 32, 98, 97, 114, 10] := by decide
  have e4 : bytes "SET k\tv\n" = [83, 69, 84, 32, 107, 9, 118, 10] := by decide
  refine ⟨⟨?_, ?_, by decide⟩, ⟨?_, ?_, by decide⟩, ⟨?_, ?_, by decide, by decide⟩,
    ⟨?_, ?_, by decide, by decide⟩, ?_, ?_, by decide, by decide⟩
  · rintro ⟨key, value, h, _⟩
    rw [set_line_eq, e1] at h
    simp at h
  · rintro ⟨key, h, _⟩
    rw [get_line_eq, e1] at h
    simp at h
  · rintro ⟨key, value, h, _⟩
    rw [set_line_eq, e2] at h
    simp at h
  · rintro ⟨key, h, _, hws⟩
    rw [get_line_eq, e2] at h
    have hk := List.append_cancel_right h
    simp only [List.cons.injEq, true_and] at hk
    have := hws 32 (by rw [← hk]; simp)
    simp [isspace] at this
  · rintro ⟨key, value, h, _⟩
    rw [set_line_eq, e3] at h
    simp at h
  · rintro ⟨key, h, _⟩
    rw [get_line_eq, e3] at h
    simp at h
  · rintro ⟨key, value, h, _⟩
    rw [set_line_eq, e4] at h
    simp only [List.cons_append, List.cons.injEq, true_and] at h
    have h32 : (32 : Byte) ∈ [107, 9, 118, 10] := by
      rw [h]
      simp
    simp at h32
  · rintro ⟨key, h, _⟩
    rw [get_line_eq, e4] at h
    simp at h
  · rintro ⟨key, value, h, _⟩
    rw [set_line_eq, e5] at h
    simp only [List.cons_append, List.cons.injEq, true_and] at h
    have h32 : (32 : Byte) ∈ List.replicate 256 97 ++ [10] := by
      rw [h]
      simp
    rcases List.mem_append.1 h32 with h1 | h1
    · have := List.eq_of_mem_replicate h1
      simp at this
    · simp at h1
  · rintro ⟨key, h, _⟩
    rw [get_line_eq, e5] at h
    simp at h

/-- C8, amended. Grammar: for every request line that `read_line` delivers (at least one
byte), `handle_client` takes the invalid-command branch (it returns 1, writes what
`write_all` gets for the error message and leaves the table as it was, calling neither
`set_kv` nor answering with a value or `NOT_FOUND`) if and only if the line, up to its
first NUL, is neither of the SET form nor of the GET form that the two scans accept. The
SET form is `SET`, any white space, a key of 1 to 255 bytes without white space, at least
one white space byte (none is needed behind a key of exactly 255 bytes), a non-empty value
that begins with a byte that is not white space, then anything. The GET form is `GET`, any
white space, a key without white space, then anything. -/
theorem C8_grammar (fd : List ReadEv) (s : Store) (hn : 0 < (read_line fd BUF_SIZE).n) :
    handle_client fd s = ⟨1, write_all MSG_ERROR 40, s, (read_line fd BUF_SIZE).fd⟩ ↔
      (¬ set_shape (cstr (read_line fd BUF_SIZE).buf) ∧
        ¬ get_shape (cstr (read_line fd BUF_SIZE).buf)) := by
  constructor
  · intro h
    have hout : (handle_client fd s).out = write_all MSG_ERROR 40 := by rw [h]
    refine ⟨fun hs => ?_, fun hg => ?_⟩
    · obtain ⟨r, _, _, _, _, he⟩ := sscanf_SET_two (scan_of_set_shape hs)
      rw [handle_client_SET fd s _ _ hn he] at hout
      have hne : bytes "OK\n" ≠ write_all MSG_ERROR 40 := by decide
      exact hne hout
    · obtain ⟨h1, h2⟩ := scan_of_get_shape hg
      obtain ⟨r, _, _, he⟩ := sscanf_GET_one h2
      rw [handle_client_GET fd s _ hn h1 he] at hout
      cases hv : get_kv s (scan_key r) with
      | none =>
        rw [hv] at hout
        have hne : bytes "NOT_FOUND\n" ≠ write_all MSG_ERROR 40 := by decide
        exact hne hout
      | some val =>
        rw [hv] at hout
        simp only at hout
        split at hout
        · exact answer_ne_error val hout
        · have hne : ([] : List Byte) ≠ write_all MSG_ERROR 40 := by decide
          exact hne hout
  · intro h
    exact handle_client_ERR fd s hn (fun h2 => h.1 (set_shape_of_scan h2))
      (fun h2 => h.2 (get_shape_of_scan h2))

set_option maxRecDepth 100000 in
/-- C8, amended, at the line `SET alpha` without value, which has the SET form of the
specification up to the missing value and takes the error branch. -/
theorem C8_grammar_witness :
    handle_client (wire (bytes "SET alpha\n")) empty_store
      = ⟨1, write_all MSG_ERROR 40, empty_store,
          (read_line (wire (bytes "SET alpha\n")) BUF_SIZE).fd⟩ :=
  (C8_grammar (wire (bytes "SET alpha\n")) empty_store (by decide)).2
    ⟨fun h => absurd (scan_of_set_shape h) (by decide),
      not_get_shape_of_no_GET (by decide)⟩

set_option maxRecDepth 100000 in
/-- C9. Keyword case: the ordinary characters `SET` and `GET` of the two formats match these
bytes only. On `set alpha hello` `handle_client` writes the bytes of the error branch and
stores nothing, where on `SET alpha hello` it writes `OK` and stores the value; on
`Get alpha` it writes the bytes of the error branch, where `GET alpha` is answered
`NOT_FOUND`. -/
theorem C9_keyword_case :
    ((handle_client (wire (bytes "set alpha hello\n")) empty_store).out
          = write_all MSG_ERROR 40 ∧
        get_kv (handle_client (wire (bytes "set alpha hello\n")) empty_store).store
          (bytes "alpha") = none) ∧
      ((handle_client (wire (bytes "SET alpha hello\n")) empty_store).out = bytes "OK\n" ∧
        get_kv (handle_client (wire (bytes "SET alpha hello\n")) empty_store).store
          (bytes "alpha") = some (bytes "hello")) ∧
      (handle_client (wire (bytes "Get alpha\n")) empty_store).out = write_all MSG_ERROR 40 ∧
      (handle_client (wire (bytes "GET alpha\n")) empty_store).out = bytes "NOT_FOUND\n" := by
  decide

set_option maxRecDepth 100000 in
/-- C10, as stated, fails: `%255s` stops after 255 bytes, and `%767[^\n]` takes what is
left of a longer key as the value. The line `SET` and a key of 256 bytes `a`, no value, is
answered `OK`, and the table maps the 255 first bytes to `"a"`. -/
theorem C10_counterexample :
    (∀ b ∈ List.replicate 256 97, isspace b = false) ∧
      (handle_client (wire (bytes "SET " ++ List.replicate 256 97 ++ bytes "\n"))
        empty_store).out = bytes "OK\n" ∧
      get_kv (handle_client (wire (bytes "SET " ++ List.replicate 256 97 ++ bytes "\n"))
        empty_store).store (List.replicate 255 97) = some (bytes "a") := by
  decide

/-- C10, amended. Rejected shapes: for every line that `read_line` delivers (at least one
byte) and that does not begin with the bytes `SET` or `GET`, or is `GET` followed by white
space only, or is `SET <key>` with white space only around a key of at most 255 bytes,
`handle_client` takes the invalid-command branch, not the SET or the GET branch: it returns
1, writes what `write_all` gets for the error message and leaves the table as it was. -/
theorem C10_rejected_shapes (fd : List ReadEv) (s : Store)
    (hn : 0 < (read_line fd BUF_SIZE).n)
    (h : no_keyword (read_line fd BUF_SIZE).buf ∨ get_without_key (read_line fd BUF_SIZE).buf ∨
      set_without_value (read_line fd BUF_SIZE).buf) :
    handle_client fd s = ⟨1, write_all MSG_ERROR 40, s, (read_line fd BUF_SIZE).fd⟩ := by
  rcases h with h | h | h
  · exact handle_client_ERR fd s hn (scan_no_keyword h).1 (scan_no_keyword h).2
  · exact handle_client_ERR fd s hn (scan_get_without_key h).1 (scan_get_without_key h).2
  · exact handle_client_ERR fd s hn (scan_set_without_value h).1 (scan_set_without_value h).2

set_option maxRecDepth 100000 in
/-- C10, amended, at the line `GET` followed by one space. -/
theorem C10_rejected_shapes_witness :
    handle_client (wire (bytes "GET \n")) empty_store
      = ⟨1, write_all MSG_ERROR 40, empty_store, (read_line (wire (bytes "GET \n")) BUF_SIZE).fd⟩ :=
  C10_rejected_shapes (wire (bytes "GET \n")) empty_store (by decide)
    (Or.inr (Or.inl ⟨bytes " \n", by decide, by decide⟩))

set_option maxRecDepth 1000000 in
set_option maxHeartbeats 4000000 in
/-- C11, as stated, fails: with a key of 255 bytes `a` and a value of 767 bytes `b` the SET
line has 1028 bytes, and `read_line` delivers at most 1023 of them. The first request
stores the 763 first bytes of the value, the 4 bytes left and the newline are answered as a
malformed request, and the GET is answered with the 763 bytes. -/
theorem C11_counterexample :
    ((List.replicate 255 97).length = 255 ∧ ∀ b ∈ List.replicate 255 97, isspace b = false) ∧
      ((List.replicate 767 98).length = 767 ∧ 10 ∉ List.replicate 767 98 ∧
        ∀ b ∈ List.replicate 767 98, isspace b = false) ∧
      (session (wire (set_line (List.replicate 255 97) (List.replicate 767 98) ++ get_line (List.replicate 255 97))) empty_store).map Prod.fst
        = some (bytes "OK\n" ++ write_all MSG_ERROR 40 ++
            (List.replicate 763 98 ++ bytes "\n")) ∧
      (session (wire (set_line (List.replicate 255 97) (List.replicate 767 98) ++ get_line (List.replicate 255 97))) empty_store).map Prod.fst
        ≠ some (bytes "OK\n" ++ (List.replicate 767 98 ++ bytes "\n")) := by
  have h1 := handle_client_wire_SET (set_line (List.replicate 255 97) (List.replicate 767 98) ++ get_line (List.replicate 255 97)) empty_store (List.replicate 255 97) (List.replicate 763 98) (by decide) (by decide)
  have h2 := handle_client_wire_ERR (after_request (set_line (List.replicate 255 97) (List.replicate 767 98) ++ get_line (List.replicate 255 97))) (set_kv empty_store (List.replicate 255 97) (List.replicate 763 98))
    (by decide) (by decide) (by decide)
  have h3 := handle_client_wire_GET (after_request (after_request (set_line (List.replicate 255 97) (List.replicate 767 98) ++ get_line (List.replicate 255 97))))
    (set_kv empty_store (List.replicate 255 97) (List.replicate 763 98)) (List.replicate 255 97) (List.replicate 763 98) (by decide) (by decide) (by decide)
    (get_kv_set_kv_fits empty_store (List.replicate 255 97) (List.replicate 763 98) (by decide) (by decide) (by decide) (by decide))
    (by decide) (by decide)
  have h4 : wire (after_request (after_request (after_request (set_line (List.replicate 255 97) (List.replicate 767 98) ++ get_line (List.replicate 255 97))))) = [] := by decide
  have hl : (session_loop 4 (wire (set_line (List.replicate 255 97) (List.replicate 767 98) ++ get_line (List.replicate 255 97))) empty_store []).map Prod.fst
      = some (bytes "OK\n" ++ write_all MSG_ERROR 40 ++ ((List.replicate 763 98) ++ bytes "\n")) := by
    rw [session_loop, h1]
    simp only [one_ne_zero, if_false]
    rw [session_loop, h2]
    simp only [one_ne_zero, if_false]
    rw [session_loop, h3]
    simp only [one_ne_zero, if_false]
    rw [session_loop, h4, handle_client_closed]
    simp
  have h := session_out_of_loop 4 (wire (set_line (List.replicate 255 97) (List.replicate 767 98) ++ get_line (List.replicate 255 97))) empty_store _ hl (by decide)
  have hk : ∀ b ∈ List.replicate 255 97, isspace b = false := by
    intro b hb
    rw [List.eq_of_mem_replicate hb]
    rfl
  have hv : ∀ b ∈ List.replicate 767 98, isspace b = false := by
    intro b hb
    rw [List.eq_of_mem_replicate hb]
    rfl
  have hnl : 10 ∉ List.replicate 767 98 := fun hm => by
    have := List.eq_of_mem_replicate hm
    simp at this
  refine ⟨⟨List.length_replicate _ _, hk⟩, ⟨List.length_replicate _ _, hnl, hv⟩, h, ?_⟩
  rw [h]
  decide

/-- C11, amended. Read your write on one connection: for every key of 1 to 255 bytes without
white space and every value of 1 to 767 bytes without newline that does not begin with white
space (both NUL-free), such that the SET line fits the line buffer (at most 1023 bytes with
its newline), the session whose input is `SET <key> <value>` and a newline followed by
`GET <key>` and a newline ends and produces the output `OK`, newline, the value, newline, in
every initial state of the table. -/
theorem C11_read_your_write (s : Store) (key value : List Byte)
    (hk1 : key ≠ []) (hk2 : key.length ≤ 255) (hk3 : ∀ b ∈ key, isspace b = false)
    (hk0 : 0 ∉ key) (hv1 : value ≠ []) (hv2 : value.length ≤ 767) (hv3 : 10 ∉ value)
    (hv0 : 0 ∉ value) (hv4 : ∀ b, value.head? = some b → isspace b = false)
    (hfit : (set_line key value).length < BUF_SIZE) :
    session (wire (set_line key value ++ get_line key)) s
      = some (bytes "OK\n" ++ (value ++ bytes "\n"), set_kv s key value) := by
  have hw : wire (set_line key value ++ get_line key)
      = wire (set_line key value) ++ (wire (get_line key) ++ []) := by
    simp [wire]
  have h1 := handle_client_set_line s (wire (get_line key) ++ []) key value hk1 hk2 hk3 hk0
    hv1 hv2 hv3 hv0 hv4 hfit
  have h2 := handle_client_get_line_found (set_kv s key value) [] key value hk1 hk2 hk3 hk0
    (get_kv_set_kv_fits s key value hk2 hv2 hk0 hv0) hv0 hv2
  have h3 := handle_client_closed (set_kv s key value)
  have h : session_loop 3 (wire (set_line key value ++ get_line key)) s []
      = some (bytes "OK\n" ++ (value ++ bytes "\n"), set_kv s key value) := by
    rw [hw, session_loop, h1]
    simp only [one_ne_zero, if_false]
    rw [session_loop, h2]
    simp only [one_ne_zero, if_false]
    rw [session_loop, h3]
    simp
  unfold session
  refine session_loop_mono 3 _ _ _ _ h _ ?_
  rw [set_line_eq, get_line_eq]
  simp [wire]

set_option maxRecDepth 100000 in
/-- C11, amended, at `SET alpha hello world` followed by `GET alpha`. -/
theorem C11_read_your_write_witness :
    session (wire (set_line (bytes "alpha") (bytes "hello world") ++ get_line (bytes "alpha")))
        empty_store
      = some (bytes "OK\n" ++ (bytes "hello world" ++ bytes "\n"),
          set_kv empty_store (bytes "alpha") (bytes "hello world")) :=
  C11_read_your_write empty_store (bytes "alpha") (bytes "hello world") (by decide) (by decide)
    (by decide) (by decide) (by decide) (by decide) (by decide) (by decide) (by decide)
    (by decide)

/-- C12. Only SET mutates: in every state of the table, a call of `handle_client` that does
not take the SET branch (a GET request, a malformed line, or no line at all) leaves the
table identical; consequently, after any number of such calls, every request, a GET of the
same key in particular, gets the response it would have got before them. -/
theorem C12_only_set_mutates (s : Store) :
    (∀ fd, set_request fd = none → (handle_client fd s).store = s) ∧
      (∀ fds : List (List ReadEv), (∀ fd ∈ fds, set_request fd = none) →
        ∀ fd, (handle_client fd (run_requests s fds)).out = (handle_client fd s).out) := by
  constructor
  · intro fd h
    rw [handle_client_store, h]
  · intro fds h fd
    rw [run_requests_fixed s fds h]

set_option maxRecDepth 100000 in
/-- C12 at a table that maps `alpha` to `1`: a GET of `alpha` is answered alike before and
after a GET and a malformed line. -/
theorem C12_only_set_mutates_witness :
    (handle_client (wire (bytes "GET alpha\n"))
        (run_requests (set_kv empty_store (bytes "alpha") (bytes "1"))
          [wire (bytes "GET alpha\n"), wire (bytes "BOGUS foo\n")])).out
      = (handle_client (wire (bytes "GET alpha\n"))
          (set_kv empty_store (bytes "alpha") (bytes "1"))).out :=
  (C12_only_set_mutates (set_kv empty_store (bytes "alpha") (bytes "1"))).2
    [wire (bytes "GET alpha\n"), wire (bytes "BOGUS foo\n")] (by decide) _

/-- C13. Session continuation: `handle_client` returns 0 exactly when `read_line` returned 0
(the peer closed before any byte, after interrupted reads at most) or -1 (a read error);
whenever `read_line` delivers at least one byte it returns 1, and it does so for every
request of at least one byte that a newline or the end of the stream ends, malformed or
not. -/
theorem C13_session_continuation (fd : List ReadEv) (s : Store) :
    ((handle_client fd s).ret = 0 ↔
        ((read_line fd BUF_SIZE).n = 0 ∨ (read_line fd BUF_SIZE).n = -1)) ∧
      ((read_line fd BUF_SIZE).n = 0 ↔ ∀ ev ∈ fd, ev = ReadEv.eintr) ∧
      (0 < (read_line fd BUF_SIZE).n → (handle_client fd s).ret = 1) ∧
      (∀ (data : List Byte) (rest : List ReadEv), data ≠ [] → (10 ∈ data ∨ rest = []) →
        (handle_client (wire data ++ rest) s).ret = 1) := by
  have hn := read_line_loop_n BUF_SIZE fd []
  refine ⟨?_, read_line_n_zero BUF_SIZE (by decide) fd, ?_, ?_⟩
  · rw [handle_client_ret]
    unfold read_line
    constructor
    · intro h
      split at h
      · rcases hn with h1 | h1
        · exact Or.inr h1
        · have := h1.1
          simp only [List.length_nil] at this
          left
          omega
      · simp at h
    · intro h
      rw [if_pos (by rcases h with h | h <;> omega)]
  · intro h
    rw [handle_client_ret, if_neg (not_le.2 h)]
  · intro data rest hd h
    rw [handle_client_ret, if_neg (not_le.2 (read_line_request_pos data rest hd h))]

set_option maxRecDepth 100000 in
/-- C13 at the malformed request `BOGUS foo`: the connection stays open. -/
theorem C13_session_continuation_witness :
    (handle_client (wire (bytes "BOGUS foo\n") ++ []) empty_store).ret = 1 :=
  (C13_session_continuation [] empty_store).2.2.2 (bytes "BOGUS foo\n") [] (by decide)
    (Or.inl (by decide))

/-- C14. Hash and djb2: `hash` reads the bytes through a `char`, signed, so a byte of 128
or more enters the sum as a negative number. On the string of the single byte 128 `hash`
returns 293 where djb2 over the byte values gives 549, and on the two bytes 195, 169 (UTF-8
of one accented letter) it returns 529 where djb2 gives 17; both results are bucket
indices below 1024. -/
theorem C14_hash_high_byte :
    (hash [128] = 293 ∧ djb2 5381 [128] % HASH_SIZE = 549) ∧
      (hash [195, 169] = 529 ∧ djb2 5381 [195, 169] % HASH_SIZE = 17) ∧
      hash [128] < HASH_SIZE ∧ hash [195, 169] < HASH_SIZE := by
  decide

set_option maxRecDepth 1000000 in
set_option maxHeartbeats 4000000 in
/-- C15, as stated, fails: `fgets` hands the client at most 1023 bytes of a line. The
operator line of 1023 bytes `x` followed by `GET k` is not `QUIT` and does not begin with
`SET ` or `GET `, yet the client, after the usage message for the 1023 first bytes, takes
the rest for a line of its own and sends `GET k` and a newline to the server. -/
theorem C15_counterexample :
    eq_ignoring_case (List.replicate 1023 120 ++ bytes "GET k") (bytes "QUIT") = false ∧
      is_command (List.replicate 1023 120 ++ bytes "GET k") = false ∧
      (client_main (List.replicate 1023 120 ++ bytes "GET k" ++ [10]) []).map ClientRun.sent
        = some (bytes "GET k\n") :=
  ⟨by decide, by decide,
    client_sent_of_loop 3 (List.replicate 1023 120 ++ bytes "GET k" ++ [10]) []
      (bytes "GET k\n") (by decide) (by decide)⟩

/-- C15, amended. Client input classification: for every operator input line without NUL
of at most 1022 bytes (trailing newline removed), so that `fgets` takes it whole, the
client does exactly one of: (a) quit without sending anything, iff the line equals `QUIT`
ignoring case: the loop ends there and the input behind the line is never looked at;
(b) send the line verbatim followed by one newline to the server, iff the line begins with
`SET ` or `GET ` ignoring case, then print the answer it reads, or the notice that the
server closed and end; (c) otherwise print the usage message, send nothing and go on with
the input behind the line. The first five parts give the action of the round, the sixth
the whole round of the loop from any state, the others whole runs of the client. -/
theorem C15_client_classification (line rest : List Byte) (h0 : 0 ∉ line) (hnl : 10 ∉ line)
    (hlen : line.length ≤ 1022) :
    ((client_step (line ++ [10] ++ rest)).1 = ClientAct.quit ↔
        eq_ignoring_case line (bytes "QUIT") = true) ∧
      ((client_step (line ++ [10] ++ rest)).1 = ClientAct.send (line ++ bytes "\n") ↔
        is_command line = true) ∧
      ((client_step (line ++ [10] ++ rest)).1 = ClientAct.usage ↔
        (eq_ignoring_case line (bytes "QUIT") = false ∧ is_command line = false)) ∧
      (∀ d, (client_step (line ++ [10] ++ rest)).1 = ClientAct.send d →
        d = line ++ bytes "\n") ∧
      (client_step (line ++ [10] ++ rest)).2 = rest ∧
      (∀ (n : Nat) (sock : List ReadEv) (run : ClientRun),
        client_loop (n + 1) (line ++ [10] ++ rest) sock run =
          if eq_ignoring_case line (bytes "QUIT") then
            some ⟨run.sent, run.printed ++ bytes "> ", run.overflow⟩
          else if is_command line then
            if (read_line sock (BUF_SIZE - 1)).n ≤ 0 then
              some ⟨run.sent ++ (line ++ bytes "\n"),
                run.printed ++ bytes "> " ++ bytes "Server closed connection\n", run.overflow⟩
            else
              client_loop n rest (read_line sock (BUF_SIZE - 1)).fd
                ⟨run.sent ++ (line ++ bytes "\n"),
                  run.printed ++ bytes "> " ++ cstr (read_line sock (BUF_SIZE - 1)).buf,
                  run.overflow⟩
          else
            client_loop n rest sock
              ⟨run.sent, run.printed ++ bytes "> " ++ MSG_USAGE, run.overflow⟩) ∧
      (∀ sock, eq_ignoring_case line (bytes "QUIT") = true →
        client_main (line ++ [10] ++ rest) sock = some ⟨[], bytes "> ", false⟩) ∧
      (∀ sock, is_command line = true →
        client_main (line ++ [10]) sock =
          some ⟨line ++ bytes "\n",
            bytes "> " ++
              (if (read_line sock (BUF_SIZE - 1)).n ≤ 0 then
                bytes "Server closed connection\n"
              else cstr (read_line sock (BUF_SIZE - 1)).buf ++ bytes "> "),
            false⟩) ∧
      (∀ sock, eq_ignoring_case line (bytes "QUIT") = false → is_command line = false →
        client_main (line ++ [10]) sock
          = some ⟨[], bytes "> " ++ MSG_USAGE ++ bytes "> ", false⟩) ∧
      (∀ sock, (client_main (line ++ [10]) sock).map ClientRun.sent =
        some (if eq_ignoring_case line (bytes "QUIT") then []
          else if is_command line then line ++ bytes "\n" else [])) := by
  have hq := @not_command_of_quit line
  refine ⟨?_, ?_, ?_, ?_, ?_,
    fun n sock run => client_loop_line n rest sock run h0 hnl hlen,
    fun sock h => client_main_quit rest sock h0 hnl hlen h,
    fun sock h => client_main_command sock h0 hnl hlen h,
    fun sock h1 h2 => client_main_usage sock h0 hnl hlen h1 h2,
    fun sock => client_main_line sock h0 hnl hlen⟩
  all_goals rw [client_step_line rest h0 hnl hlen]
  · cases h1 : eq_ignoring_case line (bytes "QUIT") <;> cases h2 : is_command line <;> simp
  · cases h1 : eq_ignoring_case line (bytes "QUIT")
    · cases h2 : is_command line <;> simp
    · simp [hq h1]
  · cases h1 : eq_ignoring_case line (bytes "QUIT") <;> cases h2 : is_command line <;> simp
  · intro d
    cases h1 : eq_ignoring_case line (bytes "QUIT") <;> cases h2 : is_command line <;> simp
    exact fun h => h.symm

set_option maxRecDepth 100000 in
/-- C15, amended, at the operator line `Quit` followed by a command: the client stops
at the line and sends nothing. -/
theorem C15_client_classification_witness :
    client_main (bytes "Quit" ++ [10] ++ bytes "GET k\n") (wire (bytes "v\n"))
      = some ⟨[], bytes "> ", false⟩ :=
  (C15_client_classification (bytes "Quit") (bytes "GET k\n") (by decide) (by decide)
    (by decide)).2.2.2.2.2.2.1 (wire (bytes "v\n")) (by decide)

set_option maxRecDepth 1000000 in
/-- C16, as stated, fails in its last sentence: with the buffer of 1024 bytes `read_line`
stores at most 1023 bytes. Of a line of exactly 1024 bytes, 1023 bytes `a` and the newline,
it returns the 1023 bytes `a` and leaves the newline unread. -/
theorem C16_counterexample :
    (List.replicate 1023 97 ++ [10]).length = 1024 ∧
      (read_line (wire (List.replicate 1023 97 ++ [10])) BUF_SIZE).buf
        = List.replicate 1023 97 ∧
      (read_line (wire (List.replicate 1023 97 ++ [10])) BUF_SIZE).buf
        ≠ List.replicate 1023 97 ++ [10] ∧
      (read_line (wire (List.replicate 1023 97 ++ [10])) BUF_SIZE).fd = wire [10] := by
  decide

/-- C16, amended. Framing: for every descriptor without read error and every `maxlen` of at
least 1, `read_line` returns and consumes exactly the shortest initial part of the bytes to
come that ends with a newline, or all of them when there is no newline, cut to at most
`maxlen - 1` bytes; the count `n` is the number of bytes returned and at most `maxlen - 1`,
so the terminator written at `buf[n]` is inside the buffer. A request line of at most
`maxlen - 1` bytes, 1023 with the buffer of `handle_client`, is returned whole. -/
theorem C16_read_line_framing (fd : List ReadEv) (maxlen : Nat) (hm : 1 ≤ maxlen)
    (herr : ReadEv.err ∉ fd) :
    (read_line fd maxlen).buf = (first_line (stream_bytes fd)).take (maxlen - 1) ∧
      (read_line fd maxlen).n = ((read_line fd maxlen).buf.length : Nat) ∧
      stream_bytes fd = (read_line fd maxlen).buf ++ stream_bytes (read_line fd maxlen).fd ∧
      (read_line fd maxlen).buf.length ≤ maxlen - 1 ∧
      (read_line fd maxlen).buf.length < maxlen ∧
      ((first_line (stream_bytes fd)).length ≤ maxlen - 1 →
        (read_line fd maxlen).buf = first_line (stream_bytes fd)) := by
  obtain ⟨h1, h2, h3⟩ := read_line_loop_framing maxlen fd [] herr
  simp only [List.nil_append, List.length_nil, Nat.sub_zero] at h1 h3
  unfold read_line
  have hlen : (read_line_loop maxlen fd []).buf.length ≤ maxlen - 1 := by
    rw [h1]
    exact List.length_take_le _ _
  refine ⟨h1, h2, h3, hlen, by omega, fun h => ?_⟩
  rw [h1, List.take_of_length_le h]

set_option maxRecDepth 100000 in
/-- C16, amended, at two lines on the wire with an interrupted read in the first. -/
theorem C16_read_line_framing_witness :
    (read_line (wire (bytes "GET") ++ ReadEv.eintr :: wire (bytes " a\nGET b\n")) BUF_SIZE).buf
      = bytes "GET a\n" :=
  (C16_read_line_framing (wire (bytes "GET") ++ ReadEv.eintr :: wire (bytes " a\nGET b\n"))
    BUF_SIZE (by decide) (by decide)).2.2.2.2.2 (by decide)

set_option maxRecDepth 1000000 in
/-- C17. One response per line: the session loop ends on every finite stream, but the bytes
of a line that `read_line` has no room for stay on the descriptor and are read as the next
request. The input is one newline-terminated line of 1027 bytes, `SET k ` and 1020 bytes
`v`; the session writes two responses, `OK` for the 1023 first bytes and the bytes of the
error branch for the 3 bytes `v` left. -/
theorem C17_long_line_two_responses :
    (∀ (fd : List ReadEv) (s : Store), (session fd s).isSome = true) ∧
      (bytes "SET k " ++ List.replicate 1020 118).length = 1026 ∧
      10 ∉ bytes "SET k " ++ List.replicate 1020 118 ∧
      (session (wire (bytes "SET k " ++ List.replicate 1020 118 ++ bytes "\n"))
          empty_store).map Prod.fst
        = some (bytes "OK\n" ++ write_all MSG_ERROR 40) :=
  ⟨session_terminates, by decide, by decide,
    session_out_of_loop 3 (wire (bytes "SET k " ++ List.replicate 1020 118 ++ bytes "\n"))
      empty_store (bytes "OK\n" ++ write_all MSG_ERROR 40) (by decide) (by decide)⟩

set_option maxRecDepth 100000 in
/-- C18, as stated, fails: of a key of 256 bytes `set_kv` stores the 255 first bytes, which
`get_kv` does not take for the key of 256 bytes. -/
theorem C18_counterexample :
    ¬ (∀ (s : Store) (key value : List Byte), 0 ∉ key → 0 ∉ value →
        get_kv (set_kv s key value) key ≠ none) := by
  intro h
  exact h empty_store (List.replicate 256 97) (bytes "v") (by decide) (by decide) (by decide)

/-- C18, amended. Set succeeds: in every state of the table, for every key string of at
most 255 bytes and every value string of any length (allocation succeeding), after
`set_kv(key, value)` the key is present: `get_kv(key)` does not return `NULL`, it returns
the 767 first bytes of the value. -/
theorem C18_set_succeeds (s : Store) (key value : List Byte) (hk0 : 0 ∉ key)
    (hk : key.length ≤ 255) :
    get_kv (set_kv s key value) key ≠ none ∧
      get_kv (set_kv s key value) key = some ((cstr value).take 767) := by
  have h := get_kv_set_kv_same s key value (by rw [cstr_of_nul_free hk0]; exact hk)
  rw [h]
  exact ⟨by simp, rfl⟩

set_option maxRecDepth 100000 in
/-- C18, amended, at a value of 1000 bytes. -/
theorem C18_set_succeeds_witness :
    get_kv (set_kv empty_store (bytes "alpha") (List.replicate 1000 98)) (bytes "alpha")
      ≠ none :=
  (C18_set_succeeds empty_store (bytes "alpha") (List.replicate 1000 98) (by decide)
    (by decide)).1

/-- C19. Other keys: in every state of the table, for keys `k` and `k1` of at most 255
bytes that differ, `get_kv(k1)` after `set_kv(k, v)` equals `get_kv(k1)` before it; hence
after any sequence of calls of `handle_client` none of which is a SET on `k1`, `get_kv(k1)`
is what it was: nothing evicts or alters the entry of `k1`. -/
theorem C19_other_keys (s : Store) (k1 : List Byte) (h0 : 0 ∉ k1) (_hk1 : k1.length ≤ 255) :
    (∀ k v : List Byte, k ≠ k1 → 0 ∉ k → k.length ≤ 255 →
        get_kv (set_kv s k v) k1 = get_kv s k1) ∧
      (∀ fds : List (List ReadEv), (∀ fd ∈ fds, ∀ v, set_request fd ≠ some (k1, v)) →
        get_kv (run_requests s fds) k1 = get_kv s k1) := by
  constructor
  · intro k v hne hk0 hk
    exact get_kv_set_kv_other s k v k1
      (by rw [cstr_of_nul_free hk0, cstr_of_nul_free h0]; exact hne)
      (by rw [cstr_of_nul_free hk0]; exact hk)
  · exact fun fds h => get_kv_run_requests k1 h0 fds s h

set_option maxRecDepth 100000 in
/-- C19 at the keys `alpha` and `beta`. -/
theorem C19_other_keys_witness :
    get_kv (set_kv (set_kv empty_store (bytes "beta") (bytes "1")) (bytes "alpha") (bytes "2"))
        (bytes "beta")
      = get_kv (set_kv empty_store (bytes "beta") (bytes "1")) (bytes "beta") :=
  (C19_other_keys (set_kv empty_store (bytes "beta") (bytes "1")) (bytes "beta") (by decide)
    (by decide)).1 (bytes "alpha") (bytes "2") (by decide) (by decide) (by decide)

/-- C20. Stored content: in every state of the table reachable from the empty table by
`handle_client` on any descriptors, every node has a key of 1 to 255 bytes without white
space and a value of 1 to 767 bytes without newline (both NUL-free) and sits in the bucket
`hash(key)`; the strings that `handle_client` hands to `set_kv` are never cut by its
`strncpy`; and the answer to a GET of a present key is the value and one newline, the
only newline of the answer. -/
theorem C20_stored_content (s : Store) (h : Reachable s) :
    (∀ i, i < HASH_SIZE → ∀ e ∈ s i, key_ok e.key ∧ value_ok e.value ∧ hash e.key = i) ∧
      (∀ fd k v, set_request fd = some (k, v) → strncpy_z k 255 = k ∧ strncpy_z v 767 = v) ∧
      (∀ fd k v, get_request fd = some k → get_kv s k = some v →
        (handle_client fd s).out = v ++ bytes "\n" ∧ 10 ∉ v) := by
  have hinv := content_inv_of_reachable h
  refine ⟨fun i _ e he => hinv i e he, ?_, ?_⟩
  · intro fd k v hr
    have := set_request_ok hr
    exact ⟨strncpy_z_of_fits this.1.2.2.2 this.1.2.1, strncpy_z_of_fits this.2.2.2.2 this.2.2.1⟩
  · intro fd k v hg hv
    obtain ⟨e, he, hev⟩ := get_kv_walk_mem hv
    have hval := (hinv _ e he).2.1
    rw [hev] at hval
    exact ⟨handle_client_out_get hg hv hval.2.2.2 hval.2.1, hval.2.2.1⟩

set_option maxRecDepth 100000 in
/-- C20 at the table reached by `SET alpha hello world`, and a GET of `alpha`. -/
theorem C20_stored_content_witness :
    (handle_client (wire (bytes "GET alpha\n"))
        (handle_client (wire (bytes "SET alpha hello world\n")) empty_store).store).out
      = bytes "hello world" ++ bytes "\n" ∧ 10 ∉ bytes "hello world" :=
  (C20_stored_content _ (Reachable.step _ _ Reachable.init)).2.2 (wire (bytes "GET alpha\n"))
    (bytes "alpha") (bytes "hello world") (by decide) (by decide)

end KVStore
